import Mathlib

/-!
# sesam-diff: the driver of `main.go` as a function of its environment

`main.go` is one sequential script: it validates its flags, changes directory,
drives `git` through a fixed series of commands, fetches a ZIP archive over
HTTPS, unpacks it, commits, diffs, restores the branch and emits the diff.

The embedding makes the environment explicit.  Every answer the process gets
from outside (the error of `os.Chdir`, the exit status and captured standard
output of each `git` command, the clock, the HTTP response, the archive
entries, the errors of `ioutil.WriteFile`) is a field of `World`; every call
site of the source is executed at most once per run (the unpack loop once per
entry), so one field per call site (indexed by the iteration for the loop)
covers every possible run.  What the process does to the outside is recorded
as a list of `Effect`s, in order.  `log.Fatal` ends the run: the result of the
run is `none` and the exit code is 1.

Go `string`s that carry text (flags, captured command output, log lines) are
Lean `String`s; file contents are lists of bytes.  Calls of the `log` and
`fmt` packages are recorded with their arguments; `fmt.Sprintf` with `%s` and
`%d` is written out as concatenation.  `filepath.Clean` is modelled for a
platform whose separator is `/`.  Calls that only read the environment
(`time.Now`, `os.Getwd`, reading the response body) are not effects: their
values come from `World`.
-/

namespace SesamDiff

/-- The text of a Go `error` value (what `err.Error()` returns). -/
abbrev Error := String

/-- A Go byte slice. -/
abbrev Bytes := List UInt8

/-- The bytes of a Go string, `[]byte(s)`: its UTF-8 encoding. -/
def bytesOf (s : String) : Bytes :=
  s.data.flatMap String.utf8EncodeChar

/-- An externally visible action of the process. -/
inductive Effect where
  /-- Calls `os.Chdir(dir)`. -/
  | chdir (dir : String)
  /-- Calls `log.Printf(format, args...)`: a line on standard error. -/
  | logPrintf (format : String) (args : List String)
  /-- Calls `log.Println(line)`: a line on standard error. -/
  | logPrintln (line : String)
  /-- Calls `log.Fatal(msg)`: a line on standard error, then `os.Exit(1)`. -/
  | logFatal (msg : String)
  /-- Calls `log.Fatalf(format, args...)`: a line on standard error, then `os.Exit(1)`. -/
  | logFatalf (format : String) (args : List String)
  /-- Runs `exec.Command(name, args...)`. -/
  | exec (name : String) (args : List String)
  /-- Sends the request `client.Do(req)`. -/
  | httpDo (method url : String) (header : List (String × String))
  /-- Writes the given text to standard output. -/
  | stdout (text : String)
  /-- Calls `ioutil.WriteFile(filename, data, perm)`: creates the file or
  truncates it, then writes `data`. -/
  | writeFile (filename : String) (data : Bytes) (perm : Nat)
  deriving DecidableEq, Repr

/-- A run of a piece of the program: the effects performed, and the value it
produced, or `none` when `log.Fatal`/`log.Fatalf` terminated the process. -/
structure Run (α : Type) where
  trace : List Effect
  result : Option α
  deriving DecidableEq, Repr

namespace Run

/-- Sequencing: when the first part was fatal nothing of the second part runs. -/
def bind {α β : Type} (r : Run α) (f : α → Run β) : Run β :=
  match r.result with
  | none => ⟨r.trace, none⟩
  | some a => ⟨r.trace ++ (f a).trace, (f a).result⟩

instance : Monad Run where
  pure a := ⟨[], some a⟩
  bind := bind

/-- Process exit status: 1 after `log.Fatal` (`os.Exit(1)`), 0 when `main` returns. -/
def exitCode {α : Type} (r : Run α) : Nat :=
  match r.result with
  | none => 1
  | some _ => 0

end Run

/-- Performs one effect. -/
def emit (e : Effect) : Run Unit := ⟨[e], some ()⟩

/-- Calls `log.Fatal(msg)`. -/
def logFatal {α : Type} (msg : String) : Run α := ⟨[Effect.logFatal msg], none⟩

/-- Calls `log.Fatalf(format, args...)`. -/
def logFatalf {α : Type} (format : String) (args : List String) : Run α :=
  ⟨[Effect.logFatalf format args], none⟩

/-- The parsed command line (`flag.Parse` succeeded). -/
structure Flags where
  pathToSource : String
  sesamNode : String
  jwt : String
  branchToCheck : String
  outFile : String
  deriving DecidableEq, Repr

/-- Constant `defaultBranch`. -/
def defaultBranch : String := "master"

/-- What `cmd.Run()` of a command with `cmd.Stdout = &out` gives: the error
(`none` for exit status 0) and the standard output captured in `out`. -/
structure CmdResult where
  err : Option Error
  out : String
  deriving DecidableEq, Repr

/-- The part of a `*http.Response` that `main` looks at; `Body` is what
`ioutil.ReadAll(resp.Body)` returns. -/
structure Response where
  StatusCode : Int
  Status : String
  Body : Bytes × Option Error
  deriving DecidableEq, Repr

/-- A `*zip.File`: its stored name, and what `Open` returns: an error, or a
reader given by what `ioutil.ReadAll` returns on it. -/
structure ZipFile where
  Name : String
  Open : Except Error (Bytes × Option Error)

/-- The answers of the environment, one per call site of `main`. -/
structure World where
  /-- Error of `os.Chdir`. -/
  chdir : Option Error
  /-- Result of `git rev-parse --is-inside-work-tree`. -/
  gitCheck : CmdResult
  /-- Result of `git rev-parse --abbrev-ref HEAD`. -/
  gitBranch : CmdResult
  /-- Value of `time.Now().Unix()`. -/
  now : Int
  /-- Result of `git checkout <branchToCheck>`. -/
  gitSwitchBranch : CmdResult
  /-- Result of `git checkout -b <newBranch>`. -/
  gitCheckoutNewbranch : CmdResult
  /-- Error of `http.NewRequest("GET", url, nil)`, by URL. -/
  newRequest : String → Option Error
  /-- Result of `client.Do(req)`. -/
  clientDo : Except Error Response
  /-- Result of `zip.NewReader` on the body: the entries in archive order. -/
  zipNewReader : Bytes → Except Error (List ZipFile)
  /-- Value of `os.Getwd()` in the i-th iteration of the unpack loop (its
  error is discarded by `main`; the value is `""` then). -/
  getwd : Nat → String
  /-- Error of `ioutil.WriteFile` in the i-th iteration of the unpack loop. -/
  writeFile : Nat → Option Error
  /-- Result of `git add .`. -/
  gitAdd : CmdResult
  /-- Result of `git commit -m "test commit"`. -/
  gitCommit : CmdResult
  /-- Result of `git diff <branchToCheck> <newBranch>`. -/
  gitDiff : CmdResult
  /-- Result of `git checkout <currentBranch>`. -/
  gitCheckoutOriginalBranch : CmdResult
  /-- Result of `git branch -D <newBranch>`. -/
  gitDeleteTempBranch : CmdResult
  /-- Error of `ioutil.WriteFile(*outFile, ...)` (discarded by `main`). -/
  writeOutFile : Option Error

/-! ## Library functions used by `main` -/

/-- Go `bytes.TrimRight(s, "\n")`: drops every trailing newline. -/
def trimRightNewline (s : String) : String :=
  ⟨(s.data.reverse.dropWhile (fun c => c == '\n')).reverse⟩

/-- Go `strings.Contains(s, substr)`. -/
def stringsContains (s substr : String) : Bool :=
  s.data.tails.any (fun t => substr.data.isPrefixOf t)

/-- Splits a path at every `/`. -/
def splitSlash : List Char → List (List Char)
  | [] => [[]]
  | c :: cs =>
    match splitSlash cs with
    | [] => [[]]
    | p :: ps => if c = '/' then [] :: p :: ps else (c :: p) :: ps

/-- One path element pushed on the elements kept so far (last one first), as
in the loop of `filepath.Clean`: empty elements and `.` are dropped, `..`
removes the element before it, is dropped at the root, and is kept at the
start of a path that is not rooted. -/
def cleanStep (rooted : Bool) (kept : List (List Char)) (elem : List Char) : List (List Char) :=
  if elem = [] ∨ elem = ['.'] then kept
  else if elem = ['.', '.'] then
    match kept with
    | [] => if rooted then [] else [elem]
    | top :: below => if top = ['.', '.'] then elem :: top :: below else below
  else elem :: kept

/-- Go `filepath.Clean` with `/` as the separator (no volume names). -/
def filepathClean (path : String) : String :=
  let rooted := path.data.head? = some '/'
  let kept := ((splitSlash path.data).foldl (cleanStep rooted) []).reverse
  let body := "/".intercalate (kept.map String.mk)
  if rooted then "/" ++ body else if body = "" then "." else body

/-- Go `fmt.Sprintf("temporary-differ-branch-%d", now)`. -/
def newBranchName (now : Int) : String :=
  "temporary-differ-branch-" ++ toString now

/-! ## The program -/

/-- Function `readZipFile` (lines 196-203): the error of `zf.Open()` with no
bytes, otherwise what `ioutil.ReadAll(f)` returns. -/
def readZipFile (zf : ZipFile) : Bytes × Option Error :=
  match zf.Open with
  | .error err => ([], some err)
  | .ok f => f

/-- Lines 21-61 of `main`: the three required flags, `os.Chdir`, the notice
about the default branch and the work-tree check. -/
def validate (fl : Flags) (w : World) : Run Unit := do
  if fl.pathToSource = "" then
    logFatal "Path to Sesam config must be provided"
  if fl.sesamNode = "" then
    logFatal "Sesam node must be provided"
  if fl.jwt = "" then
    logFatal "JWT token to access Sesam node must be provided"
  emit (.chdir fl.pathToSource)
  if let some err := w.chdir then
    logFatalf "Couldn't change working directory due to: %s" [err]
  if fl.branchToCheck = defaultBranch then
    emit (.logPrintf "Default branch (%q) will be used\n" [defaultBranch])
  emit (.exec "git" ["rev-parse", "--is-inside-work-tree"])
  if let some err := w.gitCheck.err then
    logFatal err
  if "true\n" ≠ w.gitCheck.out then
    logFatalf "Directory %q is not a GIT repo" [fl.pathToSource]

/-- Lines 63-95 of `main`: queries the current branch, switches to the branch
to check when it differs, creates and checks out the disposable branch.
Returns `(currentBranch, newBranch)`. -/
def branchOrchestration (fl : Flags) (w : World) : Run (String × String) := do
  emit (.exec "git" ["rev-parse", "--abbrev-ref", "HEAD"])
  if let some err := w.gitBranch.err then
    logFatal err
  let currentBranch := trimRightNewline w.gitBranch.out
  let newBranch := newBranchName w.now
  if currentBranch ≠ fl.branchToCheck then
    emit (.logPrintf "current branch (%q) differs from branch to check (%q)"
      [currentBranch, fl.branchToCheck])
    emit (.logPrintf "switch to branch %q" [fl.branchToCheck])
    emit (.exec "git" ["checkout", fl.branchToCheck])
    if let some err := w.gitSwitchBranch.err then
      logFatal err
  emit (.exec "git" ["checkout", "-b", newBranch])
  if let some err := w.gitCheckoutNewbranch.err then
    logFatal err
  pure (currentBranch, newBranch)

/-- Lines 97-126 of `main`: the GET request, the status check, reading the
body and opening it as a ZIP archive.  Returns `zipReader.File`. -/
def fetch (fl : Flags) (w : World) : Run (List ZipFile) := do
  let url := "https://" ++ fl.sesamNode ++ "/api/config"
  if let some err := w.newRequest url then
    logFatal err
  emit (.httpDo "GET" url
    [("Accept", "application/zip"), ("Authorization", "Bearer " ++ fl.jwt)])
  match w.clientDo with
  | .error err => logFatal err
  | .ok resp =>
    if resp.StatusCode ≥ 400 then
      logFatal resp.Status
    if let some err := resp.Body.2 then
      logFatal err
    match w.zipNewReader resp.Body.1 with
    | .error err => logFatal err
    | .ok files => pure files

/-- Lines 128-139 of `main`: the loop over `zipReader.File`, from the entry
with index `i` on. -/
def unpack (w : World) : List ZipFile → Nat → Run Unit
  | [], _ => pure ()
  | zipFile :: rest, i => do
    emit (.stdout ("Reading file: " ++ zipFile.Name ++ "\n"))
    if let some err := (readZipFile zipFile).2 then
      logFatal err
    let workDir := w.getwd i
    emit (.writeFile (filepathClean (workDir ++ "/" ++ zipFile.Name))
      (readZipFile zipFile).1 0o644)
    if let some err := w.writeFile i then
      logFatal err
    unpack w rest (i + 1)

/-- Lines 141-168 of `main`: `git add .`, `git commit`, `git diff`.  Returns
the captured diff text. -/
def stageCommitDiff (fl : Flags) (w : World) (newBranch : String) : Run String := do
  emit (.exec "git" ["add", "."])
  if let some err := w.gitAdd.err then
    emit (.logPrintln w.gitAdd.out)
    logFatal err
  emit (.exec "git" ["commit", "-m", "test commit"])
  if let some err := w.gitCommit.err then
    if !stringsContains w.gitCommit.out "working tree clean" then
      emit (.logPrintln w.gitCommit.out)
      logFatal err
  emit (.exec "git" ["diff", fl.branchToCheck, newBranch])
  if let some err := w.gitDiff.err then
    emit (.logPrintln w.gitDiff.out)
    logFatal err
  pure w.gitDiff.out

/-- Lines 170-186 of `main`: checks out the original branch and deletes the
disposable one. -/
def cleanup (w : World) (currentBranch newBranch : String) : Run Unit := do
  emit (.exec "git" ["checkout", currentBranch])
  if let some err := w.gitCheckoutOriginalBranch.err then
    emit (.logPrintln w.gitCheckoutOriginalBranch.out)
    logFatal err
  emit (.exec "git" ["branch", "-D", newBranch])
  if let some err := w.gitDeleteTempBranch.err then
    emit (.logPrintln w.gitDeleteTempBranch.out)
    logFatal err

/-- Lines 188-192 of `main`: the diff goes to the file named by `-o` (the
error of that write is dropped and `main` returns), or to standard output
through `fmt.Println`. -/
def output (fl : Flags) (diff : String) : Run Unit :=
  if fl.outFile ≠ "" then
    emit (.writeFile fl.outFile (bytesOf diff) 0o644)
  else
    emit (.stdout (diff ++ "\n"))

/-- Lines 97-168 of `main`: fetch, unpack, stage, commit and diff. -/
def fetchAndDiff (fl : Flags) (w : World) (newBranch : String) : Run String := do
  let files ← fetch fl w
  unpack w files 0
  stageCommitDiff fl w newBranch

/-- Lines 97-192 of `main`: everything after the disposable branch is checked
out. -/
def finish (fl : Flags) (w : World) (currentBranch newBranch : String) : Run Unit := do
  let diff ← fetchAndDiff fl w newBranch
  cleanup w currentBranch newBranch
  output fl diff

/-- Function `main`. -/
def main (fl : Flags) (w : World) : Run Unit := do
  validate fl w
  let (currentBranch, newBranch) ← branchOrchestration fl w
  let diff ← fetchAndDiff fl w newBranch
  cleanup w currentBranch newBranch
  output fl diff

/-! ## Observations on traces -/

/-- The effect is a call of `log.Fatal` or `log.Fatalf`. -/
def Effect.isFatal : Effect → Bool
  | .logFatal _ => true
  | .logFatalf _ _ => true
  | _ => false

/-- The effect is a call of `os.Chdir`. -/
def Effect.isChdir : Effect → Bool
  | .chdir _ => true
  | _ => false

/-- The effect is an external command. -/
def Effect.isExec : Effect → Bool
  | .exec _ _ => true
  | _ => false

/-- The effect is an HTTP request. -/
def Effect.isHttp : Effect → Bool
  | .httpDo _ _ _ => true
  | _ => false

/-- The effect is a call of `ioutil.WriteFile`. -/
def Effect.isWrite : Effect → Bool
  | .writeFile _ _ _ => true
  | _ => false

/-- The subcommand of an external command: its first argument. -/
def Effect.verb : Effect → Option String
  | .exec _ args => args.head?
  | _ => none

/-- The argument lists of the `git` commands of a trace, in order. -/
def gitCommands (t : List Effect) : List (List String) :=
  t.filterMap fun e =>
    match e with
    | .exec name args => if name = "git" then some args else none
    | _ => none

/-- The pieces of text written to standard output, in order. -/
def stdoutWrites (t : List Effect) : List String :=
  t.filterMap fun e =>
    match e with
    | .stdout text => some text
    | _ => none

/-- Everything standard output received. -/
def stdoutText (t : List Effect) : String :=
  String.join (stdoutWrites t)

/-- The calls of `ioutil.WriteFile` of a trace, in order. -/
def fileWrites (t : List Effect) : List Effect :=
  t.filter Effect.isWrite

/-! ## The traces of the phases when they succeed -/

/-- The trace of `validate` when it succeeds. -/
def validateTrace (fl : Flags) : List Effect :=
  [Effect.chdir fl.pathToSource] ++
  (if fl.branchToCheck = defaultBranch then
    [Effect.logPrintf "Default branch (%q) will be used\n" [defaultBranch]] else []) ++
  [Effect.exec "git" ["rev-parse", "--is-inside-work-tree"]]

/-- The trace of `branchOrchestration` up to and including the switch to the
branch to check. -/
def switchTrace (fl : Flags) (w : World) : List Effect :=
  [Effect.exec "git" ["rev-parse", "--abbrev-ref", "HEAD"]] ++
  (if trimRightNewline w.gitBranch.out ≠ fl.branchToCheck then
    [Effect.logPrintf "current branch (%q) differs from branch to check (%q)"
      [trimRightNewline w.gitBranch.out, fl.branchToCheck],
     Effect.logPrintf "switch to branch %q" [fl.branchToCheck],
     Effect.exec "git" ["checkout", fl.branchToCheck]]
   else [])

/-- The command that creates the disposable branch. -/
def checkoutNew (w : World) : Effect :=
  Effect.exec "git" ["checkout", "-b", newBranchName w.now]

/-- The trace of `validate` and `branchOrchestration` when both succeed. -/
def preparedTrace (fl : Flags) (w : World) : List Effect :=
  validateTrace fl ++ (switchTrace fl w ++ [checkoutNew w])

/-- The request sent by `fetch`. -/
def request (fl : Flags) : Effect :=
  Effect.httpDo "GET" ("https://" ++ fl.sesamNode ++ "/api/config")
    [("Accept", "application/zip"), ("Authorization", "Bearer " ++ fl.jwt)]

/-- The call of `ioutil.WriteFile` made for the entry `zf` in iteration `i`. -/
def entryWrite (w : World) (i : Nat) (zf : ZipFile) : Effect :=
  Effect.writeFile (filepathClean (w.getwd i ++ "/" ++ zf.Name)) (readZipFile zf).1 0o644

/-- The line printed for the entry `zf`. -/
def entryLine (zf : ZipFile) : String :=
  "Reading file: " ++ zf.Name ++ "\n"

/-- The trace of `unpack` from iteration `i` on when every entry is read and
written without error. -/
def unpackTrace (w : World) : List ZipFile → Nat → List Effect
  | [], _ => []
  | zf :: rest, i =>
    Effect.stdout (entryLine zf) :: entryWrite w i zf :: unpackTrace w rest (i + 1)

/-- The calls of `ioutil.WriteFile` expected for the entries `files`, the first
of them handled in iteration `i`: one per entry, in archive order. -/
def entryWrites (w : World) : List ZipFile → Nat → List Effect
  | [], _ => []
  | zf :: rest, i => entryWrite w i zf :: entryWrites w rest (i + 1)

/-- The entry is opened and read without error. -/
def ZipFile.readOk (zf : ZipFile) : Prop :=
  (readZipFile zf).2 = none

/-- Every entry of `files` is read without error and written without error,
the first one in iteration `i`. -/
def AllOk (w : World) (files : List ZipFile) (i : Nat) : Prop :=
  ∀ k zf, files[k]? = some zf → zf.readOk ∧ w.writeFile (i + k) = none

/-- The commit step is fatal: `git commit` returned an error and its output
does not contain `working tree clean`. -/
def commitFatal (w : World) : Prop :=
  w.gitCommit.err ≠ none ∧ stringsContains w.gitCommit.out "working tree clean" = false

instance (w : World) : Decidable (commitFatal w) := by
  unfold commitFatal; infer_instance

/-- The three commands of `stageCommitDiff`. -/
def gitAddCmd : Effect := Effect.exec "git" ["add", "."]

/-- The commit command. -/
def gitCommitCmd : Effect := Effect.exec "git" ["commit", "-m", "test commit"]

/-- The diff command. -/
def gitDiffCmd (fl : Flags) (newBranch : String) : Effect :=
  Effect.exec "git" ["diff", fl.branchToCheck, newBranch]

/-- The two commands of `cleanup`. -/
def cleanupTrace (currentBranch newBranch : String) : List Effect :=
  [Effect.exec "git" ["checkout", currentBranch], Effect.exec "git" ["branch", "-D", newBranch]]

/-- The trace of a run of `main` in which every step succeeds, for the
archive entries `files`. -/
def happyTrace (fl : Flags) (w : World) (files : List ZipFile) : List Effect :=
  validateTrace fl ++ (switchTrace fl w ++ [checkoutNew w]) ++
  ([request fl] ++ (unpackTrace w files 0 ++
    [gitAddCmd, gitCommitCmd, gitDiffCmd fl (newBranchName w.now)])) ++
  (cleanupTrace (trimRightNewline w.gitBranch.out) (newBranchName w.now) ++
    (output fl w.gitDiff.out).trace)

/-! ## A model of the branch state of git -/

/-- Branch state of a repository: the branch that is checked out, and for each
branch name the commit at its tip (`none`: no such branch). -/
structure GitState where
  head : String
  tip : String → Option Nat

/-- What a `git` command that succeeds does to the branch state; `none` when
git would refuse it.  `commit` gives the new tip of the checked-out branch
from the old one (the identity when there is nothing to commit).
`checkout -b b` needs `b` not to exist and starts it at the tip of the
checked-out branch; `checkout b` needs `b` to exist; `branch -D b` needs `b`
to exist and not to be checked out; commands that do not touch branches leave
the state as it is. -/
def gitStep (commit : Nat → Nat) (st : GitState) (args : List String) : Option GitState :=
  match args with
  | [c, b] =>
    if c = "checkout" then
      if (st.tip b).isSome then some ⟨b, st.tip⟩ else none
    else some st
  | [c, f, b] =>
    if c = "checkout" ∧ f = "-b" then
      if (st.tip b).isNone ∧ (st.tip st.head).isSome then
        some ⟨b, fun x => if x = b then st.tip st.head else st.tip x⟩
      else none
    else if c = "branch" ∧ f = "-D" then
      if (st.tip b).isSome ∧ b ≠ st.head then
        some ⟨st.head, fun x => if x = b then none else st.tip x⟩
      else none
    else if c = "commit" ∧ f = "-m" then
      if (st.tip st.head).isSome then
        some ⟨st.head, fun x => if x = st.head then (st.tip x).map commit else st.tip x⟩
      else none
    else some st
  | _ => some st

/-- Runs a series of `git` commands on the branch state. -/
def gitReplay (commit : Nat → Nat) (st : GitState) : List (List String) → Option GitState
  | [] => some st
  | args :: rest => (gitStep commit st args).bind fun st1 => gitReplay commit st1 rest

/-- The `git` commands of a run of `main` in which every step succeeds. -/
def happyCommands (branchToCheck currentBranch newBranch : String) : List (List String) :=
  [["rev-parse", "--is-inside-work-tree"], ["rev-parse", "--abbrev-ref", "HEAD"]] ++
  (if currentBranch ≠ branchToCheck then [["checkout", branchToCheck]] else []) ++
  [["checkout", "-b", newBranch], ["add", "."], ["commit", "-m", "test commit"],
   ["diff", branchToCheck, newBranch], ["checkout", currentBranch],
   ["branch", "-D", newBranch]]

/-! ## Sample runs -/

/-- A command that exits with status 0 and prints `out`. -/
def okCmd (out : String) : CmdResult := ⟨none, out⟩

/-- An archive of two entries, `a.json` holding `[]` and a newline, and `../b`
holding `x`: the second one is stored under a name that starts with `../`. -/
def sampleArchive : List ZipFile :=
  [⟨"a.json", .ok ([91, 93, 10], none)⟩, ⟨"../b", .ok ([120], none)⟩]

/-- The bytes of `sampleArchive` as a ZIP file (both entries stored without
compression). -/
def sampleZip : Bytes :=
  [80, 75, 3, 4, 20, 0, 0, 0, 0, 0, 170, 177, 110, 87, 68, 210, 104, 112, 3, 0, 0, 0, 3, 0, 0, 0,
   6, 0, 0, 0, 97, 46, 106, 115, 111, 110, 91, 93, 10,
   80, 75, 3, 4, 20, 0, 0, 0, 0, 0, 170, 177, 110, 87, 131, 22, 220, 140, 1, 0, 0, 0, 1, 0, 0, 0,
   4, 0, 0, 0, 46, 46, 47, 98, 120,
   80, 75, 1, 2, 20, 3, 20, 0, 0, 0, 0, 0, 170, 177, 110, 87, 68, 210, 104, 112, 3, 0, 0, 0,
   3, 0, 0, 0, 6, 0, 0, 0, 0, 0, 0, 0, 0, 0, 0, 0, 164, 1, 0, 0, 0, 0, 97, 46, 106, 115, 111, 110,
   80, 75, 1, 2, 20, 3, 20, 0, 0, 0, 0, 0, 170, 177, 110, 87, 131, 22, 220, 140, 1, 0, 0, 0,
   1, 0, 0, 0, 4, 0, 0, 0, 0, 0, 0, 0, 0, 0, 0, 0, 164, 1, 39, 0, 0, 0, 46, 46, 47, 98,
   80, 75, 5, 6, 0, 0, 0, 0, 2, 0, 2, 0, 102, 0, 0, 0, 74, 0, 0, 0, 0, 0]

/-- The bytes of a ZIP file without entries: the end-of-central-directory
record alone. -/
def emptyZip : Bytes :=
  [80, 75, 5, 6, 0, 0, 0, 0, 0, 0, 0, 0, 0, 0, 0, 0, 0, 0, 0, 0, 0, 0]

/-- What `zip.NewReader` gives on the sample bodies. -/
def sampleZipReader (body : Bytes) : Except Error (List ZipFile) :=
  if body = sampleZip then .ok sampleArchive
  else if body = emptyZip then .ok []
  else .error "zip: not a valid zip file"

/-- A world in which every step succeeds: the repository in `/home/u/repo` is
on `dev`, the node answers 200 with `sampleZip`, the commit adds `a.json` and
the diff shows it. -/
def sampleWorld : World where
  chdir := none
  gitCheck := okCmd "true\n"
  gitBranch := okCmd "dev\n"
  now := 1700000000
  gitSwitchBranch := okCmd ""
  gitCheckoutNewbranch := okCmd ""
  newRequest := fun _ => none
  clientDo := .ok ⟨200, "200 OK", (sampleZip, none)⟩
  zipNewReader := sampleZipReader
  getwd := fun _ => "/home/u/repo"
  writeFile := fun _ => none
  gitAdd := okCmd ""
  gitCommit := okCmd ("[temporary-differ-branch-1700000000 3f2c1ab] test commit\n" ++
    " 1 file changed, 1 insertion(+)\n create mode 100644 a.json\n")
  gitDiff := okCmd ("diff --git a/a.json b/a.json\nnew file mode 100644\n" ++
    "index 0000000..fe51488\n--- /dev/null\n+++ b/a.json\n@@ -0,0 +1 @@\n+[]\n")
  gitCheckoutOriginalBranch := okCmd ""
  gitDeleteTempBranch := okCmd "Deleted branch temporary-differ-branch-1700000000 (was 3f2c1ab).\n"
  writeOutFile := none

/-- Flags without `-o`. -/
def sampleFlags : Flags := ⟨"/home/u/repo", "node.example", "tok", "master", ""⟩

/-- Flags with `-o out.diff`. -/
def sampleFlagsOut : Flags := ⟨"/home/u/repo", "node.example", "tok", "master", "out.diff"⟩

/-- A branch state matching `sampleWorld`: `dev` is checked out, `master` and
`dev` exist. -/
def sampleGit : GitState :=
  ⟨"dev", fun x => if x = "dev" then some 1 else if x = "master" then some 0 else none⟩

/-- Flags without `-path`. -/
def flagsNoPath : Flags := ⟨"", "node.example", "tok", "master", ""⟩

/-- The world `sampleWorld`, except that the archive is empty: `git commit`
exits with status 1 reporting a clean working tree, and the diff is empty. -/
def emptyArchiveWorld : World :=
  { sampleWorld with
    clientDo := .ok ⟨200, "200 OK", (emptyZip, none)⟩
    gitCommit := ⟨some "exit status 1",
      "On branch temporary-differ-branch-1700000000\nnothing to commit, working tree clean\n"⟩
    gitDiff := okCmd "" }

/-- The world `sampleWorld`, except that writing the `-o` file fails. -/
def outputFailsWorld : World :=
  { sampleWorld with writeOutFile := some "open out.diff: permission denied" }

/-- The world `sampleWorld`, except that the node answers 404. -/
def notFoundWorld : World :=
  { sampleWorld with clientDo := .ok ⟨404, "404 Not Found", ([], none)⟩ }

/-- The world `sampleWorld`, except that `git diff` fails. -/
def diffFailsWorld : World :=
  { sampleWorld with gitDiff := ⟨some "exit status 128", ""⟩ }

set_option maxRecDepth 8000

/-! ## Sequencing -/

theorem Run.bind_eq {α β : Type} (r : Run α) (f : α → Run β) :
    r >>= f = Run.bind r f := rfl

theorem Run.pure_eq {α : Type} (a : α) : (pure a : Run α) = ⟨[], some a⟩ := rfl

theorem Run.bind_of_some {α β : Type} {r : Run α} {a : α} (f : α → Run β)
    (h : r.result = some a) : r >>= f = ⟨r.trace ++ (f a).trace, (f a).result⟩ := by
  simp [Run.bind_eq, Run.bind, h]

theorem Run.bind_of_none {α β : Type} {r : Run α} (f : α → Run β)
    (h : r.result = none) : r >>= f = ⟨r.trace, none⟩ := by
  simp [Run.bind_eq, Run.bind, h]

theorem Run.mem_bind_trace {α β : Type} (r : Run α) (f : α → Run β) (e : Effect) :
    e ∈ (r >>= f).trace ↔ e ∈ r.trace ∨ ∃ a, r.result = some a ∧ e ∈ (f a).trace := by
  cases h : r.result with
  | none => simp [Run.bind_of_none f h]
  | some a => simp [Run.bind_of_some f h]

theorem Run.bind_result_some {α β : Type} (r : Run α) (f : α → Run β) (b : β) :
    (r >>= f).result = some b ↔ ∃ a, r.result = some a ∧ (f a).result = some b := by
  cases h : r.result with
  | none => simp [Run.bind_of_none f h]
  | some a => simp [Run.bind_of_some f h]

theorem Run.exitCode_eq_zero {α : Type} (r : Run α) :
    r.exitCode = 0 ↔ ∃ a, r.result = some a := by
  cases h : r.result <;> simp [Run.exitCode, h]

theorem Run.exitCode_eq_one {α : Type} (r : Run α) :
    r.exitCode = 1 ↔ r.result = none := by
  cases h : r.result <;> simp [Run.exitCode, h]

/-! ## The phases one by one -/

theorem validate_result_some (fl : Flags) (w : World) :
    (validate fl w).result = some () ↔
      fl.pathToSource ≠ "" ∧ fl.sesamNode ≠ "" ∧ fl.jwt ≠ "" ∧ w.chdir = none ∧
      w.gitCheck.err = none ∧ w.gitCheck.out = "true\n" := by
  unfold validate
  by_cases h1 : fl.pathToSource = ""
  · simp [h1, Run.bind_eq, Run.bind, logFatal]
  by_cases h2 : fl.sesamNode = ""
  · simp [h1, h2, Run.bind_eq, Run.bind, logFatal, Run.pure_eq]
  by_cases h3 : fl.jwt = ""
  · simp [h1, h2, h3, Run.bind_eq, Run.bind, logFatal, Run.pure_eq]
  cases h4 : w.chdir with
  | some err => simp [h1, h2, h3, Run.bind_eq, Run.bind, logFatalf, emit, Run.pure_eq]
  | none =>
    cases h5 : w.gitCheck.err with
    | some err =>
      by_cases h7 : fl.branchToCheck = defaultBranch <;>
      simp [h1, h2, h3, h7, Run.bind_eq, Run.bind, logFatal, emit, Run.pure_eq]
    | none =>
      by_cases h6 : "true\n" = w.gitCheck.out <;>
      by_cases h7 : fl.branchToCheck = defaultBranch <;>
      simp [h1, h2, h3, h6, h7, Run.bind_eq, Run.bind, logFatalf, emit, Run.pure_eq, eq_comm]

theorem validate_eq_of_ok (fl : Flags) (w : World) (h : (validate fl w).result = some ()) :
    validate fl w = ⟨validateTrace fl, some ()⟩ := by
  obtain ⟨h1, h2, h3, h4, h5, h6⟩ := (validate_result_some fl w).1 h
  unfold validate validateTrace
  by_cases h7 : fl.branchToCheck = defaultBranch <;>
  simp [h1, h2, h3, h4, h5, h6, h7, Run.bind_eq, Run.bind, logFatal, logFatalf, emit,
    Run.pure_eq]

/-- Whatever happens, `validate` sends no request, writes no file and prints
nothing on standard output. -/
theorem validate_trace_quiet (fl : Flags) (w : World) :
    ∀ e ∈ (validate fl w).trace, e.isHttp = false ∧ e.isWrite = false ∧
      ∀ text, e ≠ Effect.stdout text := by
  unfold validate
  by_cases h1 : fl.pathToSource = ""
  · simp [h1, Run.bind_eq, Run.bind, logFatal, Effect.isHttp, Effect.isWrite]
  by_cases h2 : fl.sesamNode = ""
  · simp [h1, h2, Run.bind_eq, Run.bind, logFatal, Run.pure_eq, Effect.isHttp, Effect.isWrite]
  by_cases h3 : fl.jwt = ""
  · simp [h1, h2, h3, Run.bind_eq, Run.bind, logFatal, Run.pure_eq, Effect.isHttp,
      Effect.isWrite]
  cases h4 : w.chdir with
  | some err =>
    simp [h1, h2, h3, Run.bind_eq, Run.bind, logFatalf, emit, Run.pure_eq, Effect.isHttp,
      Effect.isWrite]
  | none =>
    cases h5 : w.gitCheck.err with
    | some err =>
      by_cases h7 : fl.branchToCheck = defaultBranch <;>
      simp [h1, h2, h3, h7, Run.bind_eq, Run.bind, logFatal, emit, Run.pure_eq,
        Effect.isHttp, Effect.isWrite]
    | none =>
      by_cases h6 : "true\n" = w.gitCheck.out <;>
      by_cases h7 : fl.branchToCheck = defaultBranch <;>
      simp [h1, h2, h3, h6, h7, Run.bind_eq, Run.bind, logFatalf, emit, Run.pure_eq,
        Effect.isHttp, Effect.isWrite]

theorem branch_query_fail (fl : Flags) (w : World) (err : Error)
    (hq : w.gitBranch.err = some err) :
    branchOrchestration fl w =
      ⟨[Effect.exec "git" ["rev-parse", "--abbrev-ref", "HEAD"], Effect.logFatal err], none⟩ := by
  unfold branchOrchestration
  simp [hq, Run.bind_eq, Run.bind, logFatal, emit]

theorem branch_switch_fail (fl : Flags) (w : World) (err : Error)
    (hq : w.gitBranch.err = none)
    (hne : trimRightNewline w.gitBranch.out ≠ fl.branchToCheck)
    (hs : w.gitSwitchBranch.err = some err) :
    branchOrchestration fl w = ⟨switchTrace fl w ++ [Effect.logFatal err], none⟩ := by
  unfold branchOrchestration switchTrace
  simp [hq, hne, hs, Run.bind_eq, Run.bind, logFatal, emit, Run.pure_eq]

theorem branch_new_fail (fl : Flags) (w : World) (err : Error)
    (hq : w.gitBranch.err = none)
    (hs : trimRightNewline w.gitBranch.out = fl.branchToCheck ∨ w.gitSwitchBranch.err = none)
    (hn : w.gitCheckoutNewbranch.err = some err) :
    branchOrchestration fl w =
      ⟨switchTrace fl w ++ [checkoutNew w, Effect.logFatal err], none⟩ := by
  unfold branchOrchestration switchTrace checkoutNew
  by_cases hne : trimRightNewline w.gitBranch.out = fl.branchToCheck
  · simp [hq, hne, hn, Run.bind_eq, Run.bind, logFatal, emit, Run.pure_eq]
  · have hs2 : w.gitSwitchBranch.err = none := by tauto
    simp [hq, hne, hs2, hn, Run.bind_eq, Run.bind, logFatal, emit, Run.pure_eq]

theorem branch_ok (fl : Flags) (w : World)
    (hq : w.gitBranch.err = none)
    (hs : trimRightNewline w.gitBranch.out = fl.branchToCheck ∨ w.gitSwitchBranch.err = none)
    (hn : w.gitCheckoutNewbranch.err = none) :
    branchOrchestration fl w =
      ⟨switchTrace fl w ++ [checkoutNew w],
        some (trimRightNewline w.gitBranch.out, newBranchName w.now)⟩ := by
  unfold branchOrchestration switchTrace checkoutNew
  by_cases hne : trimRightNewline w.gitBranch.out = fl.branchToCheck
  · simp [hq, hne, hn, Run.bind_eq, Run.bind, logFatal, emit, Run.pure_eq]
  · have hs2 : w.gitSwitchBranch.err = none := by tauto
    simp [hq, hne, hs2, hn, Run.bind_eq, Run.bind, logFatal, emit, Run.pure_eq]

theorem branch_result_some (fl : Flags) (w : World) (p : String × String)
    (h : (branchOrchestration fl w).result = some p) :
    w.gitBranch.err = none ∧
    (trimRightNewline w.gitBranch.out = fl.branchToCheck ∨ w.gitSwitchBranch.err = none) ∧
    w.gitCheckoutNewbranch.err = none ∧
    p = (trimRightNewline w.gitBranch.out, newBranchName w.now) := by
  cases hq : w.gitBranch.err with
  | some err => rw [branch_query_fail fl w err hq] at h; simp at h
  | none =>
    by_cases hs : trimRightNewline w.gitBranch.out = fl.branchToCheck ∨
        w.gitSwitchBranch.err = none
    · cases hn : w.gitCheckoutNewbranch.err with
      | some err => rw [branch_new_fail fl w err hq hs hn] at h; simp at h
      | none =>
        rw [branch_ok fl w hq hs hn] at h
        simp at h
        exact ⟨rfl, hs, rfl, h.symm⟩
    · have hne : trimRightNewline w.gitBranch.out ≠ fl.branchToCheck := by tauto
      cases hsw : w.gitSwitchBranch.err with
      | none => exact absurd (Or.inr hsw) hs
      | some err => rw [branch_switch_fail fl w err hq hne hsw] at h; simp at h

/-- Whatever happens, `branchOrchestration` sends no request, writes no file
and prints nothing on standard output. -/
theorem branch_trace_quiet (fl : Flags) (w : World) :
    ∀ e ∈ (branchOrchestration fl w).trace, e.isHttp = false ∧ e.isWrite = false ∧
      ∀ text, e ≠ Effect.stdout text := by
  have hsw : ∀ e ∈ switchTrace fl w, e.isHttp = false ∧ e.isWrite = false ∧
      ∀ text, e ≠ Effect.stdout text := by
    unfold switchTrace
    by_cases hne : trimRightNewline w.gitBranch.out = fl.branchToCheck <;>
    simp [hne, Effect.isHttp, Effect.isWrite]
  cases hq : w.gitBranch.err with
  | some err =>
    rw [branch_query_fail fl w err hq]
    simp [Effect.isHttp, Effect.isWrite]
  | none =>
    by_cases hs : trimRightNewline w.gitBranch.out = fl.branchToCheck ∨
        w.gitSwitchBranch.err = none
    · cases hn : w.gitCheckoutNewbranch.err with
      | some err =>
        rw [branch_new_fail fl w err hq hs hn]
        intro e he
        simp only [List.mem_append, List.mem_cons, List.mem_singleton] at he
        rcases he with he | he | he | he
        · exact hsw e he
        · subst he; simp [checkoutNew, Effect.isHttp, Effect.isWrite]
        · subst he; simp [Effect.isHttp, Effect.isWrite]
        · exact absurd he (List.not_mem_nil e)
      | none =>
        rw [branch_ok fl w hq hs hn]
        intro e he
        simp only [List.mem_append, List.mem_cons, List.mem_singleton] at he
        rcases he with he | he | he
        · exact hsw e he
        · subst he; simp [checkoutNew, Effect.isHttp, Effect.isWrite]
        · exact absurd he (List.not_mem_nil e)
    · have hne : trimRightNewline w.gitBranch.out ≠ fl.branchToCheck := by tauto
      cases hsw2 : w.gitSwitchBranch.err with
      | none => exact absurd (Or.inr hsw2) hs
      | some err =>
        rw [branch_switch_fail fl w err hq hne hsw2]
        intro e he
        simp only [List.mem_append, List.mem_cons, List.mem_singleton] at he
        rcases he with he | he | he
        · exact hsw e he
        · subst he; simp [Effect.isHttp, Effect.isWrite]
        · exact absurd he (List.not_mem_nil e)

theorem fetch_request_fail (fl : Flags) (w : World) (err : Error)
    (hreq : w.newRequest ("https://" ++ fl.sesamNode ++ "/api/config") = some err) :
    fetch fl w = ⟨[Effect.logFatal err], none⟩ := by
  unfold fetch
  simp [hreq, Run.bind_eq, Run.bind, logFatal]

theorem fetch_do_fail (fl : Flags) (w : World) (err : Error)
    (hreq : w.newRequest ("https://" ++ fl.sesamNode ++ "/api/config") = none)
    (hdo : w.clientDo = .error err) :
    fetch fl w = ⟨[request fl, Effect.logFatal err], none⟩ := by
  unfold fetch request
  simp [hreq, hdo, Run.bind_eq, Run.bind, logFatal, emit, Run.pure_eq]

theorem fetch_status_fail (fl : Flags) (w : World) (resp : Response)
    (hreq : w.newRequest ("https://" ++ fl.sesamNode ++ "/api/config") = none)
    (hdo : w.clientDo = .ok resp) (hst : resp.StatusCode ≥ 400) :
    fetch fl w = ⟨[request fl, Effect.logFatal resp.Status], none⟩ := by
  unfold fetch request
  simp [hreq, hdo, hst, Run.bind_eq, Run.bind, logFatal, emit, Run.pure_eq]

theorem fetch_body_fail (fl : Flags) (w : World) (resp : Response) (err : Error)
    (hreq : w.newRequest ("https://" ++ fl.sesamNode ++ "/api/config") = none)
    (hdo : w.clientDo = .ok resp) (hst : resp.StatusCode < 400)
    (hbody : resp.Body.2 = some err) :
    fetch fl w = ⟨[request fl, Effect.logFatal err], none⟩ := by
  have hst2 : ¬ resp.StatusCode ≥ 400 := by omega
  unfold fetch request
  simp [hreq, hdo, hst2, hbody, Run.bind_eq, Run.bind, logFatal, emit, Run.pure_eq]

theorem fetch_zip_fail (fl : Flags) (w : World) (resp : Response) (err : Error)
    (hreq : w.newRequest ("https://" ++ fl.sesamNode ++ "/api/config") = none)
    (hdo : w.clientDo = .ok resp) (hst : resp.StatusCode < 400)
    (hbody : resp.Body.2 = none) (hzip : w.zipNewReader resp.Body.1 = .error err) :
    fetch fl w = ⟨[request fl, Effect.logFatal err], none⟩ := by
  have hst2 : ¬ resp.StatusCode ≥ 400 := by omega
  unfold fetch request
  simp [hreq, hdo, hst2, hbody, hzip, Run.bind_eq, Run.bind, logFatal, emit, Run.pure_eq]

theorem fetch_ok (fl : Flags) (w : World) (resp : Response) (files : List ZipFile)
    (hreq : w.newRequest ("https://" ++ fl.sesamNode ++ "/api/config") = none)
    (hdo : w.clientDo = .ok resp) (hst : resp.StatusCode < 400)
    (hbody : resp.Body.2 = none) (hzip : w.zipNewReader resp.Body.1 = .ok files) :
    fetch fl w = ⟨[request fl], some files⟩ := by
  have hst2 : ¬ resp.StatusCode ≥ 400 := by omega
  unfold fetch request
  simp [hreq, hdo, hst2, hbody, hzip, Run.bind_eq, Run.bind, logFatal, emit, Run.pure_eq]

/-- The three shapes of a run of `fetch`. -/
theorem fetch_shape (fl : Flags) (w : World) :
    (∃ err, fetch fl w = ⟨[Effect.logFatal err], none⟩) ∨
    (∃ err, fetch fl w = ⟨[request fl, Effect.logFatal err], none⟩) ∨
    (∃ files, fetch fl w = ⟨[request fl], some files⟩) := by
  cases hreq : w.newRequest ("https://" ++ fl.sesamNode ++ "/api/config") with
  | some err => exact Or.inl ⟨err, fetch_request_fail fl w err hreq⟩
  | none =>
    cases hdo : w.clientDo with
    | error err => exact Or.inr (Or.inl ⟨err, fetch_do_fail fl w err hreq hdo⟩)
    | ok resp =>
      by_cases hst : resp.StatusCode ≥ 400
      · exact Or.inr (Or.inl ⟨resp.Status, fetch_status_fail fl w resp hreq hdo hst⟩)
      · have hst2 : resp.StatusCode < 400 := by omega
        cases hbody : resp.Body.2 with
        | some err => exact Or.inr (Or.inl ⟨err, fetch_body_fail fl w resp err hreq hdo hst2 hbody⟩)
        | none =>
          cases hzip : w.zipNewReader resp.Body.1 with
          | error err =>
            exact Or.inr (Or.inl ⟨err, fetch_zip_fail fl w resp err hreq hdo hst2 hbody hzip⟩)
          | ok files =>
            exact Or.inr (Or.inr ⟨files, fetch_ok fl w resp files hreq hdo hst2 hbody hzip⟩)

theorem fetch_result_some (fl : Flags) (w : World) (files : List ZipFile)
    (h : (fetch fl w).result = some files) :
    fetch fl w = ⟨[request fl], some files⟩ ∧
    ∃ resp, w.newRequest ("https://" ++ fl.sesamNode ++ "/api/config") = none ∧
      w.clientDo = .ok resp ∧ resp.StatusCode < 400 ∧ resp.Body.2 = none ∧
      w.zipNewReader resp.Body.1 = .ok files := by
  cases hreq : w.newRequest ("https://" ++ fl.sesamNode ++ "/api/config") with
  | some err => rw [fetch_request_fail fl w err hreq] at h; simp at h
  | none =>
    cases hdo : w.clientDo with
    | error err => rw [fetch_do_fail fl w err hreq hdo] at h; simp at h
    | ok resp =>
      by_cases hst : resp.StatusCode ≥ 400
      · rw [fetch_status_fail fl w resp hreq hdo hst] at h; simp at h
      · have hst2 : resp.StatusCode < 400 := by omega
        cases hbody : resp.Body.2 with
        | some err => rw [fetch_body_fail fl w resp err hreq hdo hst2 hbody] at h; simp at h
        | none =>
          cases hzip : w.zipNewReader resp.Body.1 with
          | error err =>
            rw [fetch_zip_fail fl w resp err hreq hdo hst2 hbody hzip] at h; simp at h
          | ok fs =>
            have hok := fetch_ok fl w resp fs hreq hdo hst2 hbody hzip
            rw [hok] at h
            simp at h
            subst h
            exact ⟨hok, resp, rfl, rfl, hst2, hbody, hzip⟩

/-! ### The unpack loop -/

theorem unpack_nil (w : World) (i : Nat) : unpack w [] i = ⟨[], some ()⟩ := rfl

theorem unpack_read_fail (w : World) (zf : ZipFile) (rest : List ZipFile) (i : Nat)
    (err : Error) (hr : (readZipFile zf).2 = some err) :
    unpack w (zf :: rest) i = ⟨[Effect.stdout (entryLine zf), Effect.logFatal err], none⟩ := by
  unfold unpack entryLine
  simp [hr, Run.bind_eq, Run.bind, logFatal, emit]

theorem unpack_write_fail (w : World) (zf : ZipFile) (rest : List ZipFile) (i : Nat)
    (err : Error) (hr : (readZipFile zf).2 = none) (hw : w.writeFile i = some err) :
    unpack w (zf :: rest) i =
      ⟨[Effect.stdout (entryLine zf), entryWrite w i zf, Effect.logFatal err], none⟩ := by
  unfold unpack entryLine entryWrite
  simp [hr, hw, Run.bind_eq, Run.bind, logFatal, emit, Run.pure_eq]

theorem unpack_cons_ok (w : World) (zf : ZipFile) (rest : List ZipFile) (i : Nat)
    (hr : (readZipFile zf).2 = none) (hw : w.writeFile i = none) :
    unpack w (zf :: rest) i =
      ⟨Effect.stdout (entryLine zf) :: entryWrite w i zf :: (unpack w rest (i + 1)).trace,
        (unpack w rest (i + 1)).result⟩ := by
  conv => lhs; unfold unpack
  cases hrest : (unpack w rest (i + 1)).result <;>
  simp [hr, hw, hrest, Run.bind_eq, Run.bind, logFatal, emit, Run.pure_eq, entryLine, entryWrite]

theorem readOk_iff (zf : ZipFile) :
    zf.readOk ↔ ∃ b, zf.Open = .ok (b, none) := by
  unfold ZipFile.readOk readZipFile
  cases h : zf.Open with
  | error err => simp
  | ok f =>
    obtain ⟨b, e⟩ := f
    cases e <;> simp

theorem readZipFile_of_ok (zf : ZipFile) (b : Bytes) (h : zf.Open = .ok (b, none)) :
    readZipFile zf = (b, none) := by
  simp [readZipFile, h]

theorem AllOk.head {w : World} {zf : ZipFile} {rest : List ZipFile} {i : Nat}
    (h : AllOk w (zf :: rest) i) : zf.readOk ∧ w.writeFile i = none := by
  simpa using h 0 zf (by simp)

theorem AllOk.tail {w : World} {zf : ZipFile} {rest : List ZipFile} {i : Nat}
    (h : AllOk w (zf :: rest) i) : AllOk w rest (i + 1) := by
  intro k z hz
  have := h (k + 1) z (by simpa using hz)
  rw [show i + 1 + k = i + (k + 1) by omega]
  exact this

theorem unpack_all_ok (w : World) (files : List ZipFile) :
    ∀ i, AllOk w files i → unpack w files i = ⟨unpackTrace w files i, some ()⟩ := by
  induction files with
  | nil => intro i _; rfl
  | cons zf rest ih =>
    intro i h
    rw [unpack_cons_ok w zf rest i h.head.1 h.head.2, ih (i + 1) h.tail]
    rfl

theorem unpack_append (w : World) (pre rest : List ZipFile) :
    ∀ i, AllOk w pre i → unpack w (pre ++ rest) i =
      ⟨unpackTrace w pre i ++ (unpack w rest (i + pre.length)).trace,
        (unpack w rest (i + pre.length)).result⟩ := by
  induction pre with
  | nil => intro i _; simp [unpackTrace]
  | cons zf pre ih =>
    intro i h
    rw [List.cons_append, unpack_cons_ok w zf (pre ++ rest) i h.head.1 h.head.2,
      ih (i + 1) h.tail]
    simp [unpackTrace, show i + 1 + pre.length = i + (pre.length + 1) by omega]

theorem unpack_result_some (w : World) (files : List ZipFile) :
    ∀ i, (unpack w files i).result = some () → AllOk w files i := by
  induction files with
  | nil => intro i _ k zf hk; simp at hk
  | cons zf rest ih =>
    intro i h
    cases hr : (readZipFile zf).2 with
    | some err => rw [unpack_read_fail w zf rest i err hr] at h; simp at h
    | none =>
      cases hw : w.writeFile i with
      | some err => rw [unpack_write_fail w zf rest i err hr hw] at h; simp at h
      | none =>
        rw [unpack_cons_ok w zf rest i hr hw] at h
        have hrest := ih (i + 1) h
        intro k z hz
        cases k with
        | zero =>
          simp at hz
          subst hz
          exact ⟨hr, by simpa using hw⟩
        | succ k =>
          have := hrest k z (by simpa using hz)
          rw [show i + (k + 1) = i + 1 + k by omega]
          exact this

theorem fileWrites_unpackTrace (w : World) (files : List ZipFile) :
    ∀ i, fileWrites (unpackTrace w files i) = entryWrites w files i := by
  induction files with
  | nil => intro i; rfl
  | cons zf rest ih =>
    intro i
    have := ih (i + 1)
    simp only [fileWrites] at this
    simp [unpackTrace, entryWrites, fileWrites, List.filter_cons, Effect.isWrite, entryWrite, this]

theorem stdoutWrites_unpackTrace (w : World) (files : List ZipFile) :
    ∀ i, stdoutWrites (unpackTrace w files i) = files.map entryLine := by
  induction files with
  | nil => intro i; rfl
  | cons zf rest ih =>
    intro i
    have := ih (i + 1)
    simp only [stdoutWrites] at this
    simp [unpackTrace, stdoutWrites, List.filterMap_cons, entryWrite, this]

theorem gitCommands_unpackTrace (w : World) (files : List ZipFile) :
    ∀ i, gitCommands (unpackTrace w files i) = [] := by
  induction files with
  | nil => intro i; rfl
  | cons zf rest ih =>
    intro i
    have := ih (i + 1)
    simp only [gitCommands] at this
    simp [unpackTrace, gitCommands, List.filterMap_cons, entryWrite, this]

theorem entryWrites_length (w : World) (files : List ZipFile) :
    ∀ i, (entryWrites w files i).length = files.length := by
  induction files with
  | nil => intro i; rfl
  | cons zf rest ih => intro i; simp [entryWrites, ih (i + 1)]

theorem entryWrites_getElem? (w : World) (files : List ZipFile) :
    ∀ i k, (entryWrites w files i)[k]? = files[k]?.map (entryWrite w (i + k)) := by
  induction files with
  | nil => intro i k; simp [entryWrites]
  | cons zf rest ih =>
    intro i k
    cases k with
    | zero => simp [entryWrites]
    | succ k =>
      simp [entryWrites, ih (i + 1) k, show i + 1 + k = i + (k + 1) by omega]

/-- Whatever happens, the unpack loop runs no command and sends no request. -/
theorem unpack_trace_quiet (w : World) (files : List ZipFile) :
    ∀ i, ∀ e ∈ (unpack w files i).trace, e.isExec = false ∧ e.isHttp = false := by
  induction files with
  | nil => intro i e he; simp [unpack_nil] at he
  | cons zf rest ih =>
    intro i
    cases hr : (readZipFile zf).2 with
    | some err =>
      rw [unpack_read_fail w zf rest i err hr]
      simp [Effect.isExec, Effect.isHttp]
    | none =>
      cases hw : w.writeFile i with
      | some err =>
        rw [unpack_write_fail w zf rest i err hr hw]
        simp [Effect.isExec, Effect.isHttp, entryWrite]
      | none =>
        rw [unpack_cons_ok w zf rest i hr hw]
        intro e he
        simp only [List.mem_cons] at he
        rcases he with he | he | he
        · subst he; simp [Effect.isExec, Effect.isHttp]
        · subst he; simp [Effect.isExec, Effect.isHttp, entryWrite]
        · exact ih (i + 1) e he

/-! ### Stage, commit, diff -/

theorem stage_add_fail (fl : Flags) (w : World) (nb : String) (err : Error)
    (ha : w.gitAdd.err = some err) :
    stageCommitDiff fl w nb =
      ⟨[gitAddCmd, Effect.logPrintln w.gitAdd.out, Effect.logFatal err], none⟩ := by
  unfold stageCommitDiff gitAddCmd
  simp [ha, Run.bind_eq, Run.bind, logFatal, emit]

theorem stage_commit_fail (fl : Flags) (w : World) (nb : String) (err : Error)
    (ha : w.gitAdd.err = none) (hc : w.gitCommit.err = some err)
    (hclean : stringsContains w.gitCommit.out "working tree clean" = false) :
    stageCommitDiff fl w nb =
      ⟨[gitAddCmd, gitCommitCmd, Effect.logPrintln w.gitCommit.out, Effect.logFatal err],
        none⟩ := by
  unfold stageCommitDiff gitAddCmd gitCommitCmd
  simp [ha, hc, hclean, Run.bind_eq, Run.bind, logFatal, emit, Run.pure_eq]

theorem stage_diff_fail (fl : Flags) (w : World) (nb : String) (err : Error)
    (ha : w.gitAdd.err = none) (hc : ¬ commitFatal w) (hd : w.gitDiff.err = some err) :
    stageCommitDiff fl w nb =
      ⟨[gitAddCmd, gitCommitCmd, gitDiffCmd fl nb, Effect.logPrintln w.gitDiff.out,
        Effect.logFatal err], none⟩ := by
  unfold stageCommitDiff gitAddCmd gitCommitCmd gitDiffCmd
  cases hce : w.gitCommit.err with
  | none => simp [ha, hce, hd, Run.bind_eq, Run.bind, logFatal, emit, Run.pure_eq]
  | some e =>
    have hclean : stringsContains w.gitCommit.out "working tree clean" = true := by
      by_contra hcon
      exact hc ⟨by simp [hce], by simpa using hcon⟩
    simp [ha, hce, hclean, hd, Run.bind_eq, Run.bind, logFatal, emit, Run.pure_eq]

theorem stage_ok (fl : Flags) (w : World) (nb : String)
    (ha : w.gitAdd.err = none) (hc : ¬ commitFatal w) (hd : w.gitDiff.err = none) :
    stageCommitDiff fl w nb =
      ⟨[gitAddCmd, gitCommitCmd, gitDiffCmd fl nb], some w.gitDiff.out⟩ := by
  unfold stageCommitDiff gitAddCmd gitCommitCmd gitDiffCmd
  cases hce : w.gitCommit.err with
  | none => simp [ha, hce, hd, Run.bind_eq, Run.bind, logFatal, emit, Run.pure_eq]
  | some e =>
    have hclean : stringsContains w.gitCommit.out "working tree clean" = true := by
      by_contra hcon
      exact hc ⟨by simp [hce], by simpa using hcon⟩
    simp [ha, hce, hclean, hd, Run.bind_eq, Run.bind, logFatal, emit, Run.pure_eq]

theorem commitFatal_err {w : World} (h : commitFatal w) :
    ∃ err, w.gitCommit.err = some err ∧
      stringsContains w.gitCommit.out "working tree clean" = false := by
  obtain ⟨h1, h2⟩ := h
  cases hce : w.gitCommit.err with
  | none => exact absurd hce h1
  | some err => exact ⟨err, rfl, h2⟩

theorem stage_result_some (fl : Flags) (w : World) (nb diff : String)
    (h : (stageCommitDiff fl w nb).result = some diff) :
    w.gitAdd.err = none ∧ ¬ commitFatal w ∧ w.gitDiff.err = none ∧ diff = w.gitDiff.out := by
  cases ha : w.gitAdd.err with
  | some err => rw [stage_add_fail fl w nb err ha] at h; simp at h
  | none =>
    by_cases hc : commitFatal w
    · obtain ⟨err, hce, hclean⟩ := commitFatal_err hc
      rw [stage_commit_fail fl w nb err ha hce hclean] at h; simp at h
    · cases hd : w.gitDiff.err with
      | some err => rw [stage_diff_fail fl w nb err ha hc hd] at h; simp at h
      | none =>
        rw [stage_ok fl w nb ha hc hd] at h
        simp at h
        exact ⟨rfl, hc, rfl, h.symm⟩

/-- Whatever happens, the only commands of `stageCommitDiff` are `git add`,
`git commit` and `git diff`. -/
theorem stage_trace_execs (fl : Flags) (w : World) (nb : String) :
    ∀ e ∈ (stageCommitDiff fl w nb).trace, ∀ name args, e = Effect.exec name args →
      args.head? = some "add" ∨ args.head? = some "commit" ∨ args.head? = some "diff" := by
  cases ha : w.gitAdd.err with
  | some err =>
    rw [stage_add_fail fl w nb err ha]
    simp [gitAddCmd]
  | none =>
    by_cases hc : commitFatal w
    · obtain ⟨err, hce, hclean⟩ := commitFatal_err hc
      rw [stage_commit_fail fl w nb err ha hce hclean]
      simp [gitAddCmd, gitCommitCmd]
    · cases hd : w.gitDiff.err with
      | some err =>
        rw [stage_diff_fail fl w nb err ha hc hd]
        simp [gitAddCmd, gitCommitCmd, gitDiffCmd]
      | none =>
        rw [stage_ok fl w nb ha hc hd]
        simp [gitAddCmd, gitCommitCmd, gitDiffCmd]

/-! ### Cleanup -/

theorem cleanup_checkout_fail (w : World) (cb nb : String) (err : Error)
    (h1 : w.gitCheckoutOriginalBranch.err = some err) :
    cleanup w cb nb =
      ⟨[Effect.exec "git" ["checkout", cb],
        Effect.logPrintln w.gitCheckoutOriginalBranch.out, Effect.logFatal err], none⟩ := by
  unfold cleanup
  simp [h1, Run.bind_eq, Run.bind, logFatal, emit]

theorem cleanup_delete_fail (w : World) (cb nb : String) (err : Error)
    (h1 : w.gitCheckoutOriginalBranch.err = none) (h2 : w.gitDeleteTempBranch.err = some err) :
    cleanup w cb nb =
      ⟨cleanupTrace cb nb ++
        [Effect.logPrintln w.gitDeleteTempBranch.out, Effect.logFatal err], none⟩ := by
  unfold cleanup cleanupTrace
  simp [h1, h2, Run.bind_eq, Run.bind, logFatal, emit, Run.pure_eq]

theorem cleanup_ok (w : World) (cb nb : String)
    (h1 : w.gitCheckoutOriginalBranch.err = none) (h2 : w.gitDeleteTempBranch.err = none) :
    cleanup w cb nb = ⟨cleanupTrace cb nb, some ()⟩ := by
  unfold cleanup cleanupTrace
  simp [h1, h2, Run.bind_eq, Run.bind, logFatal, emit, Run.pure_eq]

theorem cleanup_result_some (w : World) (cb nb : String)
    (h : (cleanup w cb nb).result = some ()) :
    w.gitCheckoutOriginalBranch.err = none ∧ w.gitDeleteTempBranch.err = none := by
  cases h1 : w.gitCheckoutOriginalBranch.err with
  | some err => rw [cleanup_checkout_fail w cb nb err h1] at h; simp at h
  | none =>
    cases h2 : w.gitDeleteTempBranch.err with
    | some err => rw [cleanup_delete_fail w cb nb err h1 h2] at h; simp at h
    | none => exact ⟨rfl, rfl⟩

theorem output_result (fl : Flags) (diff : String) : (output fl diff).result = some () := by
  unfold output
  by_cases h : fl.outFile = "" <;> simp [h, emit]

/-! ### The whole run -/

theorem fetchAndDiff_eq (fl : Flags) (w : World) (nb : String) :
    fetchAndDiff fl w nb =
      fetch fl w >>= fun files => unpack w files 0 >>= fun _ => stageCommitDiff fl w nb := rfl

theorem main_eq (fl : Flags) (w : World) :
    main fl w =
      validate fl w >>= fun _ => branchOrchestration fl w >>= fun p =>
        fetchAndDiff fl w p.2 >>= fun diff => cleanup w p.1 p.2 >>= fun _ => output fl diff :=
  rfl

theorem fetchAndDiff_result_some (fl : Flags) (w : World) (nb diff : String)
    (h : (fetchAndDiff fl w nb).result = some diff) :
    ∃ resp files, w.newRequest ("https://" ++ fl.sesamNode ++ "/api/config") = none ∧
      w.clientDo = .ok resp ∧ resp.StatusCode < 400 ∧ resp.Body.2 = none ∧
      w.zipNewReader resp.Body.1 = .ok files ∧ AllOk w files 0 ∧
      w.gitAdd.err = none ∧ ¬ commitFatal w ∧ w.gitDiff.err = none ∧ diff = w.gitDiff.out ∧
      fetchAndDiff fl w nb =
        ⟨[request fl] ++ (unpackTrace w files 0 ++ [gitAddCmd, gitCommitCmd, gitDiffCmd fl nb]),
          some w.gitDiff.out⟩ := by
  rw [fetchAndDiff_eq] at h
  obtain ⟨files, hf, h⟩ := (Run.bind_result_some _ _ _).1 h
  obtain ⟨u, hu, hs⟩ := (Run.bind_result_some _ _ _).1 h
  obtain ⟨hfeq, resp, hreq, hdo, hst, hbody, hzip⟩ := fetch_result_some fl w files hf
  have hall := unpack_result_some w files 0 hu
  obtain ⟨ha, hc, hd, hdiff⟩ := stage_result_some fl w nb diff hs
  refine ⟨resp, files, hreq, hdo, hst, hbody, hzip, hall, ha, hc, hd, hdiff, ?_⟩
  rw [fetchAndDiff_eq, hfeq, Run.bind_of_some _ rfl, unpack_all_ok w files 0 hall,
    Run.bind_of_some _ rfl, stage_ok fl w nb ha hc hd]

theorem main_happy (fl : Flags) (w : World) (h : (main fl w).result = some ()) :
    ∃ resp files, w.clientDo = .ok resp ∧ resp.StatusCode < 400 ∧
      w.zipNewReader resp.Body.1 = .ok files ∧ AllOk w files 0 ∧
      main fl w = ⟨happyTrace fl w files, some ()⟩ := by
  have h0 := h
  rw [main_eq] at h
  obtain ⟨u, hv, h⟩ := (Run.bind_result_some _ _ _).1 h
  obtain ⟨p, hb, h⟩ := (Run.bind_result_some _ _ _).1 h
  obtain ⟨diff, hfd, h⟩ := (Run.bind_result_some _ _ _).1 h
  obtain ⟨u2, hc, ho⟩ := (Run.bind_result_some _ _ _).1 h
  obtain ⟨hq, hs, hn, hp⟩ := branch_result_some fl w p hb
  subst hp
  obtain ⟨resp, files, hreq, hdo, hst, hbody, hzip, hall, ha, hcf, hd, hdiff, hfdeq⟩ :=
    fetchAndDiff_result_some fl w _ diff hfd
  obtain ⟨hc1, hc2⟩ := cleanup_result_some w _ _ hc
  refine ⟨resp, files, hdo, hst, hzip, hall, ?_⟩
  rw [main_eq, validate_eq_of_ok fl w hv, Run.bind_of_some _ rfl, branch_ok fl w hq hs hn,
    Run.bind_of_some _ rfl, hfdeq, Run.bind_of_some _ rfl, cleanup_ok w _ _ hc1 hc2,
    Run.bind_of_some _ rfl]
  simp [happyTrace, output_result]

/-! ### Observations on the trace of a successful run -/

theorem gitCommands_append (s t : List Effect) :
    gitCommands (s ++ t) = gitCommands s ++ gitCommands t := by
  simp [gitCommands, List.filterMap_append]

theorem stdoutWrites_append (s t : List Effect) :
    stdoutWrites (s ++ t) = stdoutWrites s ++ stdoutWrites t := by
  simp [stdoutWrites, List.filterMap_append]

theorem fileWrites_append (s t : List Effect) :
    fileWrites (s ++ t) = fileWrites s ++ fileWrites t := by
  simp [fileWrites, List.filter_append]

theorem validateTrace_obs (fl : Flags) :
    gitCommands (validateTrace fl) = [["rev-parse", "--is-inside-work-tree"]] ∧
    stdoutWrites (validateTrace fl) = [] ∧ fileWrites (validateTrace fl) = [] := by
  unfold validateTrace
  by_cases h1 : fl.branchToCheck = defaultBranch <;>
  simp [gitCommands, stdoutWrites, fileWrites, Effect.isWrite, h1]

theorem switchTrace_obs (fl : Flags) (w : World) :
    gitCommands (switchTrace fl w) =
      [["rev-parse", "--abbrev-ref", "HEAD"]] ++
        (if trimRightNewline w.gitBranch.out ≠ fl.branchToCheck then
          [["checkout", fl.branchToCheck]] else []) ∧
    stdoutWrites (switchTrace fl w) = [] ∧ fileWrites (switchTrace fl w) = [] := by
  unfold switchTrace
  by_cases h2 : trimRightNewline w.gitBranch.out = fl.branchToCheck <;>
  simp [gitCommands, stdoutWrites, fileWrites, Effect.isWrite, h2]

theorem output_obs (fl : Flags) (diff : String) :
    gitCommands (output fl diff).trace = [] ∧
    stdoutWrites (output fl diff).trace = (if fl.outFile ≠ "" then [] else [diff ++ "\n"]) ∧
    fileWrites (output fl diff).trace =
      (if fl.outFile ≠ "" then [Effect.writeFile fl.outFile (bytesOf diff) 0o644] else []) := by
  unfold output
  by_cases h3 : fl.outFile = "" <;>
  simp [gitCommands, stdoutWrites, fileWrites, Effect.isWrite, h3, emit]

theorem gitCommands_happyTrace (fl : Flags) (w : World) (files : List ZipFile) :
    gitCommands (happyTrace fl w files) =
      happyCommands fl.branchToCheck (trimRightNewline w.gitBranch.out)
        (newBranchName w.now) := by
  unfold happyTrace happyCommands
  simp only [gitCommands_append, gitCommands_unpackTrace w files 0, (validateTrace_obs fl).1,
    (switchTrace_obs fl w).1, (output_obs fl w.gitDiff.out).1]
  simp [gitCommands, checkoutNew, request, gitAddCmd, gitCommitCmd, gitDiffCmd, cleanupTrace]

theorem stdoutWrites_happyTrace (fl : Flags) (w : World) (files : List ZipFile) :
    stdoutWrites (happyTrace fl w files) =
      files.map entryLine ++ (if fl.outFile ≠ "" then [] else [w.gitDiff.out ++ "\n"]) := by
  unfold happyTrace
  simp only [stdoutWrites_append, stdoutWrites_unpackTrace w files 0, (validateTrace_obs fl).2.1,
    (switchTrace_obs fl w).2.1, (output_obs fl w.gitDiff.out).2.1]
  simp [stdoutWrites, checkoutNew, request, gitAddCmd, gitCommitCmd, gitDiffCmd, cleanupTrace]

theorem fileWrites_happyTrace (fl : Flags) (w : World) (files : List ZipFile) :
    fileWrites (happyTrace fl w files) =
      entryWrites w files 0 ++
        (if fl.outFile ≠ "" then [Effect.writeFile fl.outFile (bytesOf w.gitDiff.out) 0o644]
          else []) := by
  unfold happyTrace
  simp only [fileWrites_append, fileWrites_unpackTrace w files 0, (validateTrace_obs fl).2.2,
    (switchTrace_obs fl w).2.2, (output_obs fl w.gitDiff.out).2.2]
  simp [fileWrites, checkoutNew, request, gitAddCmd, gitCommitCmd, gitDiffCmd, cleanupTrace,
    Effect.isWrite]

/-! ### The branch-state model on the commands of a successful run -/

theorem gitReplay_happy (commit : Nat → Nat) (st : GitState) (b nb : String)
    (hhead : st.tip st.head ≠ none) (hb : st.tip b ≠ none) (hnb : st.tip nb = none) :
    ∃ st1, gitReplay commit st (happyCommands b st.head nb) = some st1 ∧
      st1.head = st.head ∧ ∀ x, st1.tip x = st.tip x := by
  obtain ⟨ch, hch⟩ := Option.ne_none_iff_exists'.1 hhead
  obtain ⟨cb, hcb⟩ := Option.ne_none_iff_exists'.1 hb
  have hne1 : st.head ≠ nb := by
    intro h; rw [h] at hch; rw [hch] at hnb; exact absurd hnb (by simp)
  have hne2 : b ≠ nb := by
    intro h; rw [h] at hcb; rw [hcb] at hnb; exact absurd hnb (by simp)
  have hstep : ∀ s : GitState, s.head = b → s.tip = st.tip →
      ∃ st1, gitReplay commit s [["checkout", "-b", nb], ["add", "."],
        ["commit", "-m", "test commit"], ["diff", b, nb], ["checkout", st.head],
        ["branch", "-D", nb]] = some st1 ∧ st1.head = st.head ∧ ∀ x, st1.tip x = st.tip x := by
    intro s hs1 hs2
    simp [gitReplay, gitStep, hs1, hs2, hcb, hnb, hch, hne1, hne1.symm, hne2, hne2.symm]
    intro x
    by_cases hx : x = nb <;> simp [hx, hnb]
  have hpre : ∀ rest : List (List String),
      gitReplay commit st ([["rev-parse", "--is-inside-work-tree"],
        ["rev-parse", "--abbrev-ref", "HEAD"]] ++
        (if st.head ≠ b then [["checkout", b]] else []) ++ rest) =
      gitReplay commit ⟨b, st.tip⟩ rest := by
    intro rest
    by_cases hcur : st.head = b
    · simp [gitReplay, gitStep, hcur]
      rw [← hcur]
    · simp [gitReplay, gitStep, hcur, hcb]
  unfold happyCommands
  rw [hpre]
  exact hstep ⟨b, st.tip⟩ rfl rfl

/-! ### Runs that stop early -/

theorem main_eq_finish (fl : Flags) (w : World) :
    main fl w =
      validate fl w >>= fun _ => branchOrchestration fl w >>= fun p => finish fl w p.1 p.2 :=
  rfl

theorem finish_eq (fl : Flags) (w : World) (cb nb : String) :
    finish fl w cb nb =
      fetchAndDiff fl w nb >>= fun diff => cleanup w cb nb >>= fun _ => output fl diff := rfl

theorem main_of_validate_fail (fl : Flags) (w : World) (h : (validate fl w).result = none) :
    main fl w = ⟨(validate fl w).trace, none⟩ := by
  rw [main_eq_finish, Run.bind_of_none _ h]

theorem main_of_branch_fail (fl : Flags) (w : World) (hv : (validate fl w).result = some ())
    (hb : (branchOrchestration fl w).result = none) :
    main fl w = ⟨validateTrace fl ++ (branchOrchestration fl w).trace, none⟩ := by
  rw [main_eq_finish, validate_eq_of_ok fl w hv, Run.bind_of_some _ rfl, Run.bind_of_none _ hb]

theorem main_of_prepared (fl : Flags) (w : World) (p : String × String)
    (hv : (validate fl w).result = some ())
    (hb : (branchOrchestration fl w).result = some p) :
    p = (trimRightNewline w.gitBranch.out, newBranchName w.now) ∧
    main fl w =
      ⟨preparedTrace fl w ++
          (finish fl w (trimRightNewline w.gitBranch.out) (newBranchName w.now)).trace,
        (finish fl w (trimRightNewline w.gitBranch.out) (newBranchName w.now)).result⟩ := by
  obtain ⟨hq, hs, hn, hp⟩ := branch_result_some fl w p hb
  refine ⟨hp, ?_⟩
  rw [main_eq_finish, validate_eq_of_ok fl w hv, Run.bind_of_some _ rfl, branch_ok fl w hq hs hn,
    Run.bind_of_some _ rfl]
  simp [preparedTrace]

theorem finish_of_fail (fl : Flags) (w : World) (cb nb : String)
    (h : (fetchAndDiff fl w nb).result = none) :
    finish fl w cb nb = ⟨(fetchAndDiff fl w nb).trace, none⟩ := by
  rw [finish_eq, Run.bind_of_none _ h]

theorem fetchAndDiff_of_fetch_fail (fl : Flags) (w : World) (nb : String)
    (h : (fetch fl w).result = none) :
    fetchAndDiff fl w nb = ⟨(fetch fl w).trace, none⟩ := by
  rw [fetchAndDiff_eq, Run.bind_of_none _ h]

theorem fetchAndDiff_of_fetch_ok (fl : Flags) (w : World) (nb : String) (files : List ZipFile)
    (h : (fetch fl w).result = some files) :
    fetchAndDiff fl w nb =
      ⟨request fl :: (unpack w files 0 >>= fun _ => stageCommitDiff fl w nb).trace,
        (unpack w files 0 >>= fun _ => stageCommitDiff fl w nb).result⟩ := by
  rw [fetchAndDiff_eq, (fetch_result_some fl w files h).1, Run.bind_of_some _ rfl]
  rfl

/-- The effects of a successful preparation: no request, no file write,
nothing on standard output, and no command besides `rev-parse` and
`checkout`. -/
theorem preparedTrace_obs (fl : Flags) (w : World) :
    ∀ e ∈ preparedTrace fl w, e.isHttp = false ∧ e.isWrite = false ∧ e.isFatal = false ∧
      (e.verb = none ∨ e.verb = some "rev-parse" ∨ e.verb = some "checkout") := by
  have hv : ∀ e ∈ validateTrace fl, e.isHttp = false ∧ e.isWrite = false ∧
      e.isFatal = false ∧
      (e.verb = none ∨ e.verb = some "rev-parse" ∨ e.verb = some "checkout") := by
    unfold validateTrace
    by_cases h1 : fl.branchToCheck = defaultBranch <;>
    simp [Effect.isHttp, Effect.isWrite, Effect.isFatal, Effect.verb, h1]
  have hs : ∀ e ∈ switchTrace fl w ++ [checkoutNew w], e.isHttp = false ∧ e.isWrite = false ∧
      e.isFatal = false ∧
      (e.verb = none ∨ e.verb = some "rev-parse" ∨ e.verb = some "checkout") := by
    unfold switchTrace checkoutNew
    by_cases h2 : trimRightNewline w.gitBranch.out = fl.branchToCheck <;>
    simp [Effect.isHttp, Effect.isWrite, Effect.isFatal, Effect.verb, h2]
  intro e he
  rcases List.mem_append.1 he with he | he
  · exact hv e he
  · exact hs e he

/-- A run that sent the request got through validation and branch
orchestration, and `http.NewRequest` returned no error. -/
theorem request_sent (fl : Flags) (w : World) (h : request fl ∈ (main fl w).trace) :
    (validate fl w).result = some () ∧
    (branchOrchestration fl w).result =
      some (trimRightNewline w.gitBranch.out, newBranchName w.now) ∧
    w.newRequest ("https://" ++ fl.sesamNode ++ "/api/config") = none := by
  have hreqHttp : (request fl).isHttp = true := rfl
  cases hv : (validate fl w).result with
  | none =>
    rw [main_of_validate_fail fl w hv] at h
    have := (validate_trace_quiet fl w _ h).1
    rw [hreqHttp] at this; exact absurd this (by simp)
  | some u =>
    cases hb : (branchOrchestration fl w).result with
    | none =>
      rw [main_of_branch_fail fl w hv hb] at h
      have hvt : (validate fl w).trace = validateTrace fl := by
        rw [validate_eq_of_ok fl w hv]
      rcases List.mem_append.1 h with h | h
      · rw [← hvt] at h
        have := (validate_trace_quiet fl w _ h).1
        rw [hreqHttp] at this; exact absurd this (by simp)
      · have := (branch_trace_quiet fl w _ h).1
        rw [hreqHttp] at this; exact absurd this (by simp)
    | some p =>
      obtain ⟨hp, hmain⟩ := main_of_prepared fl w p hv hb
      subst hp
      refine ⟨rfl, rfl, ?_⟩
      cases hreq : w.newRequest ("https://" ++ fl.sesamNode ++ "/api/config") with
      | none => rfl
      | some err =>
        exfalso
        have hf := fetch_request_fail fl w err hreq
        have hfd := fetchAndDiff_of_fetch_fail fl w (newBranchName w.now) (by rw [hf])
        have hfin := finish_of_fail fl w (trimRightNewline w.gitBranch.out)
          (newBranchName w.now) (by rw [hfd])
        rw [hmain, hfin, hfd, hf] at h
        rcases List.mem_append.1 h with h | h
        · have := (preparedTrace_obs fl w _ h).1
          rw [hreqHttp] at this; exact absurd this (by simp)
        · simp [request] at h

theorem Run.bind_trace_split {α β : Type} (r : Run α) (f : α → Run β) :
    ∃ post, (r >>= f).trace = r.trace ++ post ∧
      ∀ a, r.result = some a → post = (f a).trace := by
  cases h : r.result with
  | none => exact ⟨[], by rw [Run.bind_of_none f h]; simp, by simp⟩
  | some a =>
    refine ⟨(f a).trace, by rw [Run.bind_of_some f h], ?_⟩
    intro b hb
    cases hb
    rfl

/-- Whatever happens, the first effect of `stageCommitDiff` is `git add .`. -/
theorem stage_trace_head (fl : Flags) (w : World) (nb : String) :
    ∃ rest, (stageCommitDiff fl w nb).trace = gitAddCmd :: rest := by
  cases ha : w.gitAdd.err with
  | some err => exact ⟨_, by rw [stage_add_fail fl w _ err ha]⟩
  | none =>
    by_cases hc : commitFatal w
    · obtain ⟨err, hce, hclean⟩ := commitFatal_err hc
      exact ⟨_, by rw [stage_commit_fail fl w _ err ha hce hclean]⟩
    · cases hd : w.gitDiff.err with
      | some err => exact ⟨_, by rw [stage_diff_fail fl w _ err ha hc hd]⟩
      | none => exact ⟨_, by rw [stage_ok fl w _ ha hc hd]⟩

/-! ### Commands of branch orchestration and of the phases after it -/

theorem branch_commands (fl : Flags) (w : World) (hq : w.gitBranch.err = none) :
    gitCommands (branchOrchestration fl w).trace =
      [["rev-parse", "--abbrev-ref", "HEAD"]] ++
      (if trimRightNewline w.gitBranch.out ≠ fl.branchToCheck then
        [["checkout", fl.branchToCheck]] else []) ++
      (if trimRightNewline w.gitBranch.out ≠ fl.branchToCheck ∧ w.gitSwitchBranch.err ≠ none
        then [] else [["checkout", "-b", newBranchName w.now]]) := by
  by_cases hs : trimRightNewline w.gitBranch.out = fl.branchToCheck ∨
      w.gitSwitchBranch.err = none
  · have hcond : ¬ (trimRightNewline w.gitBranch.out ≠ fl.branchToCheck ∧
        w.gitSwitchBranch.err ≠ none) := by tauto
    rw [if_neg hcond]
    cases hn : w.gitCheckoutNewbranch.err with
    | some err =>
      rw [branch_new_fail fl w err hq hs hn]
      simp only [gitCommands_append, (switchTrace_obs fl w).1]
      simp [gitCommands, checkoutNew]
    | none =>
      rw [branch_ok fl w hq hs hn]
      simp only [gitCommands_append, (switchTrace_obs fl w).1]
      simp [gitCommands, checkoutNew]
  · have hne : trimRightNewline w.gitBranch.out ≠ fl.branchToCheck := by tauto
    have hsw : w.gitSwitchBranch.err ≠ none := by tauto
    obtain ⟨err, herr⟩ := Option.ne_none_iff_exists'.1 hsw
    rw [branch_switch_fail fl w err hq hne herr]
    simp only [gitCommands_append, (switchTrace_obs fl w).1]
    simp [gitCommands, hne, herr]

theorem verb_of_not_exec (e : Effect) (h : e.isExec = false) : e.verb = none := by
  cases e <;> simp [Effect.isExec] at h <;> rfl

/-- Whatever happens, the only commands of the fetch, unpack, stage, commit
and diff phases are `git add`, `git commit` and `git diff`. -/
theorem fetchAndDiff_trace_verbs (fl : Flags) (w : World) (nb : String) :
    ∀ e ∈ (fetchAndDiff fl w nb).trace,
      e.verb = none ∨ e.verb = some "add" ∨ e.verb = some "commit" ∨ e.verb = some "diff" := by
  intro e he
  rw [fetchAndDiff_eq] at he
  rcases (Run.mem_bind_trace _ _ _).1 he with he | ⟨files, _, he⟩
  · left
    rcases fetch_shape fl w with ⟨err, h⟩ | ⟨err, h⟩ | ⟨fs, h⟩ <;> rw [h] at he <;>
      simp only [List.mem_cons, List.mem_singleton, List.not_mem_nil, or_false] at he
    · subst he; rfl
    · rcases he with he | he <;> subst he <;> rfl
    · subst he; rfl
  · rcases (Run.mem_bind_trace _ _ _).1 he with he | ⟨_, _, he⟩
    · left
      exact verb_of_not_exec e (unpack_trace_quiet w files 0 e he).1
    · cases hv : e.verb with
      | none => left; rfl
      | some v =>
        right
        cases e with
        | exec name args =>
          have := stage_trace_execs fl w nb _ he name args rfl
          simp only [Effect.verb] at hv
          rw [hv] at this
          exact this
        | _ => simp [Effect.verb] at hv

theorem mem_gitCommands (t : List Effect) (c : List String) (h : c ∈ gitCommands t) :
    Effect.exec "git" c ∈ t := by
  unfold gitCommands at h
  obtain ⟨e, he, hc⟩ := List.mem_filterMap.1 h
  cases e with
  | exec name args =>
    by_cases hn : name = "git"
    · simp [hn] at hc
      subst hc; subst hn
      exact he
    · simp [hn] at hc
  | _ => simp at hc

theorem gitStep_keeps_head (commit : Nat → Nat) (st : GitState) (args : List String)
    (h1 : args.head? ≠ some "checkout") (h2 : args.head? ≠ some "branch")
    (ht : st.tip st.head ≠ none) :
    ∃ st1, gitStep commit st args = some st1 ∧ st1.head = st.head ∧
      st1.tip st1.head ≠ none := by
  obtain ⟨c0, hc0⟩ := Option.ne_none_iff_exists'.1 ht
  rcases args with _ | ⟨c, _ | ⟨f, _ | ⟨b, _ | ⟨x, rest⟩⟩⟩⟩
  · exact ⟨st, rfl, rfl, ht⟩
  · exact ⟨st, rfl, rfl, ht⟩
  · have hc : c ≠ "checkout" := by simpa using h1
    exact ⟨st, by simp [gitStep, hc], rfl, ht⟩
  · have hc : c ≠ "checkout" := by simpa using h1
    have hb : c ≠ "branch" := by simpa using h2
    by_cases hm : c = "commit" ∧ f = "-m"
    · refine ⟨⟨st.head, fun x => if x = st.head then (st.tip x).map commit else st.tip x⟩,
        by simp [gitStep, hc, hb, hm, hc0], rfl, ?_⟩
      simp [hc0]
    · exact ⟨st, by simp [gitStep, hc, hb, hm], rfl, ht⟩
  · exact ⟨st, rfl, rfl, ht⟩

theorem gitReplay_keeps_head (commit : Nat → Nat) (cmds : List (List String)) :
    ∀ st : GitState,
      (∀ c ∈ cmds, c.head? ≠ some "checkout" ∧ c.head? ≠ some "branch") →
      st.tip st.head ≠ none →
      ∃ st1, gitReplay commit st cmds = some st1 ∧ st1.head = st.head := by
  induction cmds with
  | nil => intro st _ _; exact ⟨st, rfl, rfl⟩
  | cons c rest ih =>
    intro st hall ht
    obtain ⟨st1, hstep, hhead, htip⟩ :=
      gitStep_keeps_head commit st c (hall c (by simp)).1 (hall c (by simp)).2 ht
    obtain ⟨st2, hrep, hhead2⟩ := ih st1 (fun c hc => hall c (by simp [hc])) htip
    exact ⟨st2, by simp [gitReplay, hstep, hrep], by rw [hhead2, hhead]⟩

/-! ## The claims -/

/-- C1: when one of `-path`, `-node`, `-jwt` is empty the run is fatal (exit
code 1, a single `log.Fatal` diagnostic) and does nothing else: no chdir, no
command, no HTTP request, no file write. -/
theorem missing_required_flag_is_fatal (fl : Flags) (w : World)
    (h : fl.pathToSource = "" ∨ fl.sesamNode = "" ∨ fl.jwt = "") :
    (main fl w).exitCode = 1 ∧ (∃ msg, (main fl w).trace = [Effect.logFatal msg]) ∧
    ∀ e ∈ (main fl w).trace,
      e.isChdir = false ∧ e.isExec = false ∧ e.isHttp = false ∧ e.isWrite = false := by
  have key : (main fl w).result = none ∧ ∃ msg, (main fl w).trace = [Effect.logFatal msg] := by
    unfold main validate
    by_cases h1 : fl.pathToSource = ""
    · simp [h1, Run.bind_eq, Run.bind, logFatal]
    · by_cases h2 : fl.sesamNode = ""
      · simp [h1, h2, Run.bind_eq, Run.bind, logFatal, Run.pure_eq]
      · have h3 : fl.jwt = "" := by tauto
        simp [h1, h2, h3, Run.bind_eq, Run.bind, logFatal, Run.pure_eq]
  obtain ⟨hres, msg, htr⟩ := key
  refine ⟨(Run.exitCode_eq_one _).2 hres, ⟨msg, htr⟩, ?_⟩
  rw [htr]
  simp [Effect.isChdir, Effect.isExec, Effect.isHttp, Effect.isWrite]

/-- Witness of C1: no `-path`. -/
theorem missing_required_flag_is_fatal_witness :
    (flagsNoPath.pathToSource = "" ∨ flagsNoPath.sesamNode = "" ∨ flagsNoPath.jwt = "") ∧
    (main flagsNoPath sampleWorld).exitCode = 1 :=
  ⟨by decide, (missing_required_flag_is_fatal flagsNoPath sampleWorld (by decide)).1⟩

/-- C2: in a run in which every step succeeds, started on branch `B0` (the
current-branch query, trailing newlines trimmed, gives `B0`), the last two
`git` commands are `git checkout B0` and `git branch -D <disposable>`, the
disposable name being the one given earlier to `git checkout -b`; and in the
branch-state model, from any state with `B0` checked out in which the branch
to check exists and the disposable branch does not, the commands of the run
end with `B0` checked out and the disposable branch gone. -/
theorem happy_path_restores_branch (fl : Flags) (w : World) (B0 : String)
    (hrun : (main fl w).result = some ())
    (hB0 : trimRightNewline w.gitBranch.out = B0) :
    (∃ pre, gitCommands (main fl w).trace =
        pre ++ [["checkout", B0], ["branch", "-D", newBranchName w.now]] ∧
        ["checkout", "-b", newBranchName w.now] ∈ pre) ∧
    ∀ (commit : Nat → Nat) (st : GitState), st.head = B0 → st.tip B0 ≠ none →
      st.tip fl.branchToCheck ≠ none → st.tip (newBranchName w.now) = none →
      ∃ st1, gitReplay commit st (gitCommands (main fl w).trace) = some st1 ∧
        st1.head = B0 ∧ st1.tip (newBranchName w.now) = none := by
  obtain ⟨resp, files, _, _, _, _, hmain⟩ := main_happy fl w hrun
  have hcmds : gitCommands (main fl w).trace =
      happyCommands fl.branchToCheck B0 (newBranchName w.now) := by
    rw [hmain, ← hB0]
    exact gitCommands_happyTrace fl w files
  refine ⟨⟨[["rev-parse", "--is-inside-work-tree"], ["rev-parse", "--abbrev-ref", "HEAD"]] ++
      (if B0 ≠ fl.branchToCheck then [["checkout", fl.branchToCheck]] else []) ++
      [["checkout", "-b", newBranchName w.now], ["add", "."], ["commit", "-m", "test commit"],
        ["diff", fl.branchToCheck, newBranchName w.now]], ?_, ?_⟩, ?_⟩
  · rw [hcmds]; simp [happyCommands]
  · simp
  · intro commit st hhead htip hb hnb
    rw [hcmds, ← hhead]
    rw [← hhead] at htip
    obtain ⟨st1, h1, h2, h3⟩ := gitReplay_happy commit st fl.branchToCheck _ htip hb hnb
    exact ⟨st1, h1, h2, by rw [h3]; exact hnb⟩

/-- Witness of C2: the sample run, started on `dev`. -/
theorem happy_path_restores_branch_witness :
    (main sampleFlags sampleWorld).result = some () ∧
    trimRightNewline sampleWorld.gitBranch.out = "dev" ∧
    ∃ st1, gitReplay id sampleGit (gitCommands (main sampleFlags sampleWorld).trace) = some st1 ∧
      st1.head = "dev" ∧ st1.tip (newBranchName sampleWorld.now) = none :=
  ⟨by decide, by decide,
    (happy_path_restores_branch sampleFlags sampleWorld "dev" (by decide) (by decide)).2
      id sampleGit rfl (by decide) (by decide) (by decide)⟩

/-- C3, as the code has it: in a successful run on the archive `files`,
standard output receives one line `Reading file: <name>` per archive entry, in
archive order; with `-o` set nothing else goes to standard output and the last
effect is the write of exactly the diff text to the `-o` file with permissions
0644; with `-o` empty the entry lines are followed by the diff text and the
newline of `fmt.Println`, and the only files written are the archive entries. -/
theorem output_routing (fl : Flags) (w : World) (h : (main fl w).result = some ()) :
    ∃ resp files, w.clientDo = .ok resp ∧ w.zipNewReader resp.Body.1 = .ok files ∧
      (fl.outFile ≠ "" →
        stdoutWrites (main fl w).trace =
          files.map (fun zf => "Reading file: " ++ zf.Name ++ "\n") ∧
        (main fl w).trace.getLast? =
          some (Effect.writeFile fl.outFile (bytesOf w.gitDiff.out) 0o644) ∧
        fileWrites (main fl w).trace =
          entryWrites w files 0 ++
            [Effect.writeFile fl.outFile (bytesOf w.gitDiff.out) 0o644]) ∧
      (fl.outFile = "" →
        stdoutWrites (main fl w).trace =
          files.map (fun zf => "Reading file: " ++ zf.Name ++ "\n") ++
            [w.gitDiff.out ++ "\n"] ∧
        fileWrites (main fl w).trace = entryWrites w files 0) := by
  obtain ⟨resp, files, hdo, _, hzip, _, hmain⟩ := main_happy fl w h
  refine ⟨resp, files, hdo, hzip, ?_, ?_⟩
  · intro ho
    rw [hmain]
    refine ⟨?_, ?_, ?_⟩
    · rw [stdoutWrites_happyTrace, if_pos ho, List.append_nil]
      rfl
    · have hlast : happyTrace fl w files =
          (validateTrace fl ++ (switchTrace fl w ++ [checkoutNew w]) ++
            ([request fl] ++ (unpackTrace w files 0 ++
              [gitAddCmd, gitCommitCmd, gitDiffCmd fl (newBranchName w.now)])) ++
            cleanupTrace (trimRightNewline w.gitBranch.out) (newBranchName w.now)) ++
          [Effect.writeFile fl.outFile (bytesOf w.gitDiff.out) 0o644] := by
        simp [happyTrace, output, ho, emit]
      rw [hlast, List.getLast?_concat]
    · rw [fileWrites_happyTrace, if_pos ho]
  · intro ho
    rw [hmain]
    have ho2 : ¬ fl.outFile ≠ "" := by simp [ho]
    refine ⟨?_, ?_⟩
    · rw [stdoutWrites_happyTrace, if_neg ho2]
      rfl
    · rw [fileWrites_happyTrace, if_neg ho2, List.append_nil]

/-- Witness of C3: the sample run with `-o out.diff`. -/
theorem output_routing_witness :
    (main sampleFlagsOut sampleWorld).result = some () ∧
    ∃ resp files, sampleWorld.clientDo = .ok resp ∧
      sampleWorld.zipNewReader resp.Body.1 = .ok files ∧
      (sampleFlagsOut.outFile ≠ "" →
        stdoutWrites (main sampleFlagsOut sampleWorld).trace =
          files.map (fun zf => "Reading file: " ++ zf.Name ++ "\n") ∧
        (main sampleFlagsOut sampleWorld).trace.getLast? =
          some (Effect.writeFile sampleFlagsOut.outFile (bytesOf sampleWorld.gitDiff.out) 0o644) ∧
        fileWrites (main sampleFlagsOut sampleWorld).trace =
          entryWrites sampleWorld files 0 ++
            [Effect.writeFile sampleFlagsOut.outFile (bytesOf sampleWorld.gitDiff.out) 0o644]) ∧
      (sampleFlagsOut.outFile = "" →
        stdoutWrites (main sampleFlagsOut sampleWorld).trace =
          files.map (fun zf => "Reading file: " ++ zf.Name ++ "\n") ++
            [sampleWorld.gitDiff.out ++ "\n"] ∧
        fileWrites (main sampleFlagsOut sampleWorld).trace = entryWrites sampleWorld files 0) :=
  ⟨by decide, output_routing sampleFlagsOut sampleWorld (by decide)⟩

/-- Counterexample to C3 as stated: with `-o out.diff` and an archive of two
entries the run succeeds and standard output is not empty (it holds the two
entry lines); with `-o` empty and an empty archive the run succeeds and
standard output is not the diff text (the diff text is empty and standard
output holds a newline). -/
theorem output_routing_counterexample :
    (sampleFlagsOut.outFile ≠ "" ∧ (main sampleFlagsOut sampleWorld).exitCode = 0 ∧
      stdoutText (main sampleFlagsOut sampleWorld).trace ≠ "" ∧
      stdoutText (main sampleFlagsOut sampleWorld).trace =
        "Reading file: a.json\nReading file: ../b\n") ∧
    (sampleFlags.outFile = "" ∧ (main sampleFlags emptyArchiveWorld).exitCode = 0 ∧
      stdoutText (main sampleFlags emptyArchiveWorld).trace ≠ emptyArchiveWorld.gitDiff.out ∧
      stdoutText (main sampleFlags emptyArchiveWorld).trace = "\n") := by
  decide

/-- C4, at the failing input: `-o out.diff`, every step succeeds and the write
of the `-o` file fails; the run exits with status 0 and logs nothing fatal. -/
theorem output_write_error_exits_zero :
    outputFailsWorld.writeOutFile = some "open out.diff: permission denied" ∧
    (main sampleFlagsOut outputFailsWorld).exitCode = 0 ∧
    (main sampleFlagsOut outputFailsWorld).trace.any Effect.isFatal = false ∧
    (main sampleFlagsOut outputFailsWorld).trace.getLast? =
      some (Effect.writeFile "out.diff" (bytesOf outputFailsWorld.gitDiff.out) 0o644) := by
  decide

/-- C5: in a run that sent the request and got the response `resp`: when the
status code is 400 or more the run is fatal, its last effect is `log.Fatal`
of the status line, and the trace has no file write and no `git add`,
`git commit` or `git diff`; when the status code is below 400 and the body is
read and opened as an archive, `fetch` returns the entries and the run goes
on with the unpack loop and, after it, `git add`. -/
theorem http_error_status_is_fatal (fl : Flags) (w : World) (resp : Response)
    (hsent : request fl ∈ (main fl w).trace) (hdo : w.clientDo = .ok resp) :
    (resp.StatusCode ≥ 400 →
      (main fl w).exitCode = 1 ∧
      (main fl w).trace.getLast? = some (Effect.logFatal resp.Status) ∧
      ∀ e ∈ (main fl w).trace, e.isWrite = false ∧ e.verb ≠ some "add" ∧
        e.verb ≠ some "commit" ∧ e.verb ≠ some "diff") ∧
    (resp.StatusCode < 400 →
      ∀ files, resp.Body.2 = none → w.zipNewReader resp.Body.1 = .ok files →
        (fetch fl w).result = some files ∧
        ∃ pre post, (main fl w).trace = pre ++ request fl :: ((unpack w files 0).trace ++ post) ∧
          ((unpack w files 0).result = some () →
            post.head? = some (Effect.exec "git" ["add", "."]))) := by
  obtain ⟨hv, hb, hreq⟩ := request_sent fl w hsent
  obtain ⟨_, hmain⟩ := main_of_prepared fl w _ hv hb
  constructor
  · intro hst
    have hf := fetch_status_fail fl w resp hreq hdo hst
    have hfd := fetchAndDiff_of_fetch_fail fl w (newBranchName w.now) (by rw [hf])
    have hfin := finish_of_fail fl w (trimRightNewline w.gitBranch.out)
      (newBranchName w.now) (by rw [hfd])
    rw [hfin, hfd, hf] at hmain
    rw [hmain]
    refine ⟨rfl, ?_, ?_⟩
    · have : preparedTrace fl w ++ [request fl, Effect.logFatal resp.Status] =
          (preparedTrace fl w ++ [request fl]) ++ [Effect.logFatal resp.Status] := by simp
      show (preparedTrace fl w ++ [request fl, Effect.logFatal resp.Status]).getLast? = _
      rw [this, List.getLast?_concat]
    · intro e he
      rcases List.mem_append.1 he with he | he
      · obtain ⟨_, h2, _, h4⟩ := preparedTrace_obs fl w e he
        refine ⟨h2, ?_, ?_, ?_⟩ <;> rcases h4 with h4 | h4 | h4 <;> rw [h4] <;> decide
      · simp only [List.mem_cons, List.mem_singleton, List.not_mem_nil, or_false] at he
        rcases he with he | he <;> subst he <;>
          simp [request, Effect.isWrite, Effect.verb]
  · intro hst files hbody hzip
    have hf := fetch_ok fl w resp files hreq hdo hst hbody hzip
    refine ⟨by rw [hf], ?_⟩
    have hfd := fetchAndDiff_of_fetch_ok fl w (newBranchName w.now) files (by rw [hf])
    obtain ⟨post1, hp1, hp1s⟩ := Run.bind_trace_split (unpack w files 0)
      (fun _ => stageCommitDiff fl w (newBranchName w.now))
    obtain ⟨post2, hp2, _⟩ := Run.bind_trace_split (fetchAndDiff fl w (newBranchName w.now))
      (fun diff => cleanup w (trimRightNewline w.gitBranch.out) (newBranchName w.now) >>=
        fun _ => output fl diff)
    refine ⟨preparedTrace fl w, post1 ++ post2, ?_, ?_⟩
    · rw [hmain]
      show preparedTrace fl w ++ (finish fl w _ _).trace = _
      rw [finish_eq, hp2, hfd]
      show preparedTrace fl w ++ (request fl :: (unpack w files 0 >>= _).trace ++ post2) = _
      rw [hp1]
      simp
    · intro hu
      rw [hp1s () hu]
      obtain ⟨rest, hrest⟩ := stage_trace_head fl w (newBranchName w.now)
      rw [hrest]
      simp [gitAddCmd]

/-- Witness of C5: the node answers 404. -/
theorem http_error_status_is_fatal_witness :
    request sampleFlags ∈ (main sampleFlags notFoundWorld).trace ∧
    notFoundWorld.clientDo = .ok ⟨404, "404 Not Found", ([], none)⟩ ∧
    (main sampleFlags notFoundWorld).exitCode = 1 ∧
    (main sampleFlags notFoundWorld).trace.getLast? = some (Effect.logFatal "404 Not Found") :=
  ⟨by decide, rfl,
    ((http_error_status_is_fatal sampleFlags notFoundWorld ⟨404, "404 Not Found", ([], none)⟩
      (by decide) rfl).1 (by decide)).1,
    ((http_error_status_is_fatal sampleFlags notFoundWorld ⟨404, "404 Not Found", ([], none)⟩
      (by decide) rfl).1 (by decide)).2.1⟩

/-- C6: once `git add` has succeeded, the commit step is fatal exactly when
`git commit` returns an error and its output does not contain
`working tree clean`: then the run stops right after the commit with the
output logged and `log.Fatal` of the error; otherwise the next effect after
the commit is `git diff <branch-to-check> <disposable>`.  For an empty archive
the unpack loop does nothing, and a failing commit that reports
`working tree clean` lets the phase return the diff. -/
theorem commit_step_fatal_iff (fl : Flags) (w : World) (nb : String)
    (ha : w.gitAdd.err = none) :
    ((w.gitCommit.err ≠ none ∧
        stringsContains w.gitCommit.out "working tree clean" = false) →
      ∃ err, w.gitCommit.err = some err ∧
        stageCommitDiff fl w nb =
          ⟨[Effect.exec "git" ["add", "."], Effect.exec "git" ["commit", "-m", "test commit"],
            Effect.logPrintln w.gitCommit.out, Effect.logFatal err], none⟩) ∧
    (¬ (w.gitCommit.err ≠ none ∧
        stringsContains w.gitCommit.out "working tree clean" = false) →
      ∃ post, (stageCommitDiff fl w nb).trace =
        [Effect.exec "git" ["add", "."], Effect.exec "git" ["commit", "-m", "test commit"],
          Effect.exec "git" ["diff", fl.branchToCheck, nb]] ++ post) ∧
    (∀ i, unpack w [] i = ⟨[], some ()⟩) ∧
    ((fetch fl w).result = some [] → w.gitCommit.err ≠ none →
      stringsContains w.gitCommit.out "working tree clean" = true → w.gitDiff.err = none →
      fetchAndDiff fl w nb =
        ⟨[request fl, Effect.exec "git" ["add", "."],
          Effect.exec "git" ["commit", "-m", "test commit"],
          Effect.exec "git" ["diff", fl.branchToCheck, nb]], some w.gitDiff.out⟩) := by
  refine ⟨?_, ?_, fun i => rfl, ?_⟩
  · intro hc
    obtain ⟨err, hce, hclean⟩ := commitFatal_err hc
    exact ⟨err, hce, stage_commit_fail fl w nb err ha hce hclean⟩
  · intro hc
    cases hd : w.gitDiff.err with
    | some err => exact ⟨_, by rw [stage_diff_fail fl w nb err ha hc hd]; rfl⟩
    | none => exact ⟨[], by rw [stage_ok fl w nb ha hc hd]; rfl⟩
  · intro hf _ hclean hd
    have hc : ¬ commitFatal w := by
      intro hc
      rw [hc.2] at hclean
      exact absurd hclean (by simp)
    rw [fetchAndDiff_of_fetch_ok fl w nb [] hf, unpack_nil, Run.bind_of_some _ rfl,
      stage_ok fl w nb ha hc hd]
    rfl

/-- Witness of C6: an empty archive and a commit that fails with a clean
working tree. -/
theorem commit_step_fatal_iff_witness :
    emptyArchiveWorld.gitAdd.err = none ∧
    fetchAndDiff sampleFlags emptyArchiveWorld "tmp" =
      ⟨[request sampleFlags, Effect.exec "git" ["add", "."],
        Effect.exec "git" ["commit", "-m", "test commit"],
        Effect.exec "git" ["diff", sampleFlags.branchToCheck, "tmp"]],
        some emptyArchiveWorld.gitDiff.out⟩ :=
  ⟨rfl, (commit_step_fatal_iff sampleFlags emptyArchiveWorld "tmp" rfl).2.2.2
    rfl (by decide) (by decide) (by decide)⟩

/-- C7: once the current-branch query has succeeded, with `currentBranch` its
output without trailing newlines: `git checkout <branch-to-check>` is among
the commands of branch orchestration exactly when `currentBranch` differs from
the branch to check; when that checkout fails the phase is fatal with its
error and no further command is issued; otherwise the next command is
`git checkout -b temporary-differ-branch-<timestamp>`, and the phase succeeds
exactly when that command does.  In the branch-state model a successful phase
ends on the disposable branch, whose tip is the tip of the branch to check. -/
theorem branch_orchestration_contract (fl : Flags) (w : World)
    (hq : w.gitBranch.err = none) :
    newBranchName w.now = "temporary-differ-branch-" ++ toString w.now ∧
    (["checkout", fl.branchToCheck] ∈ gitCommands (branchOrchestration fl w).trace ↔
      trimRightNewline w.gitBranch.out ≠ fl.branchToCheck) ∧
    (trimRightNewline w.gitBranch.out ≠ fl.branchToCheck →
      ∀ err, w.gitSwitchBranch.err = some err →
        (branchOrchestration fl w).result = none ∧
        (branchOrchestration fl w).trace.getLast? = some (Effect.logFatal err) ∧
        gitCommands (branchOrchestration fl w).trace =
          [["rev-parse", "--abbrev-ref", "HEAD"], ["checkout", fl.branchToCheck]]) ∧
    ((trimRightNewline w.gitBranch.out = fl.branchToCheck ∨ w.gitSwitchBranch.err = none) →
      gitCommands (branchOrchestration fl w).trace =
        [["rev-parse", "--abbrev-ref", "HEAD"]] ++
        (if trimRightNewline w.gitBranch.out ≠ fl.branchToCheck then
          [["checkout", fl.branchToCheck]] else []) ++
        [["checkout", "-b", newBranchName w.now]] ∧
      ((branchOrchestration fl w).result =
          some (trimRightNewline w.gitBranch.out, newBranchName w.now) ↔
        w.gitCheckoutNewbranch.err = none)) ∧
    ((branchOrchestration fl w).result ≠ none →
      ∀ (commit : Nat → Nat) (st : GitState) (c : Nat),
        st.head = trimRightNewline w.gitBranch.out → st.tip fl.branchToCheck = some c →
        st.tip (newBranchName w.now) = none →
        ∃ st1, gitReplay commit st (gitCommands (branchOrchestration fl w).trace) = some st1 ∧
          st1.head = newBranchName w.now ∧ st1.tip (newBranchName w.now) = some c) := by
  have hcmds := branch_commands fl w hq
  refine ⟨rfl, ?_, ?_, ?_, ?_⟩
  · rw [hcmds]
    by_cases hne : trimRightNewline w.gitBranch.out = fl.branchToCheck
    · simp [hne]
    · cases hsw : w.gitSwitchBranch.err <;> simp [hne]
  · intro hne err herr
    rw [hcmds, branch_switch_fail fl w err hq hne herr]
    refine ⟨rfl, List.getLast?_concat _, ?_⟩
    simp [hne, herr]
  · intro hs
    have hcond : ¬ (trimRightNewline w.gitBranch.out ≠ fl.branchToCheck ∧
        w.gitSwitchBranch.err ≠ none) := by tauto
    refine ⟨by rw [hcmds]; simp only [if_neg hcond], ?_⟩
    cases hn : w.gitCheckoutNewbranch.err with
    | some err => rw [branch_new_fail fl w err hq hs hn]; simp
    | none => rw [branch_ok fl w hq hs hn]; simp
  · intro hres commit st c hhead hb hnb
    obtain ⟨p, hp⟩ := Option.ne_none_iff_exists'.1 hres
    obtain ⟨_, hs, hn, _⟩ := branch_result_some fl w p hp
    have hcond : ¬ (trimRightNewline w.gitBranch.out ≠ fl.branchToCheck ∧
        w.gitSwitchBranch.err ≠ none) := by tauto
    rw [hcmds]
    simp only [if_neg hcond]
    have hne2 : fl.branchToCheck ≠ newBranchName w.now := by
      intro h; rw [h] at hb; rw [hb] at hnb; exact absurd hnb (by simp)
    refine ⟨⟨newBranchName w.now,
      fun x => if x = newBranchName w.now then st.tip fl.branchToCheck else st.tip x⟩,
      ?_, rfl, by simp [hb]⟩
    by_cases hcur : trimRightNewline w.gitBranch.out = fl.branchToCheck
    · have hh : st.head = fl.branchToCheck := by rw [hhead, hcur]
      simp [gitReplay, gitStep, hcur, hb, hnb, hh]
    · simp [gitReplay, gitStep, hcur, hb, hnb]

/-- Witness of C7: the sample world, where the repository is on `dev` and the
branch to check is `master`. -/
theorem branch_orchestration_contract_witness :
    sampleWorld.gitBranch.err = none ∧
    (["checkout", sampleFlags.branchToCheck] ∈
        gitCommands (branchOrchestration sampleFlags sampleWorld).trace ↔
      trimRightNewline sampleWorld.gitBranch.out ≠ sampleFlags.branchToCheck) :=
  ⟨rfl, (branch_orchestration_contract sampleFlags sampleWorld rfl).2.1⟩

/-- C8: when every entry of the archive is opened, read and written without
error, the unpack loop succeeds and makes exactly one call of
`ioutil.WriteFile` per entry, in archive order, the k-th one to the cleaned
path of the working directory joined with the entry name, with the bytes read
from the entry and permissions 0644.  When the entries before `zf` are fine
and `zf` cannot be read, or cannot be written, the loop is fatal with that
error and no entry after `zf` is written. -/
theorem unpack_writes_each_entry (w : World) (files : List ZipFile) :
    ((∀ k zf, files[k]? = some zf →
        (∃ b, zf.Open = .ok (b, none)) ∧ w.writeFile k = none) →
      (unpack w files 0).result = some () ∧
      (fileWrites (unpack w files 0).trace).length = files.length ∧
      ∀ k zf b, files[k]? = some zf → zf.Open = .ok (b, none) →
        (fileWrites (unpack w files 0).trace)[k]? =
          some (Effect.writeFile (filepathClean (w.getwd k ++ "/" ++ zf.Name)) b 0o644)) ∧
    (∀ pre zf post err, files = pre ++ zf :: post →
      (∀ k z, pre[k]? = some z → (∃ b, z.Open = .ok (b, none)) ∧ w.writeFile k = none) →
      ((readZipFile zf).2 = some err →
        (unpack w files 0).result = none ∧
        (unpack w files 0).trace.getLast? = some (Effect.logFatal err) ∧
        fileWrites (unpack w files 0).trace = entryWrites w pre 0) ∧
      ((readZipFile zf).2 = none → w.writeFile pre.length = some err →
        (unpack w files 0).result = none ∧
        (unpack w files 0).trace.getLast? = some (Effect.logFatal err) ∧
        fileWrites (unpack w files 0).trace =
          entryWrites w pre 0 ++
            [Effect.writeFile (filepathClean (w.getwd pre.length ++ "/" ++ zf.Name))
              (readZipFile zf).1 0o644])) := by
  have hall : ∀ fs : List ZipFile,
      (∀ k zf, fs[k]? = some zf → (∃ b, zf.Open = .ok (b, none)) ∧ w.writeFile k = none) →
      AllOk w fs 0 := by
    intro fs h k zf hk
    obtain ⟨hb, hw⟩ := h k zf hk
    exact ⟨(readOk_iff zf).2 hb, by simpa using hw⟩
  constructor
  · intro h
    rw [unpack_all_ok w files 0 (hall files h)]
    refine ⟨rfl, ?_, ?_⟩
    · show (fileWrites (unpackTrace w files 0)).length = _
      rw [fileWrites_unpackTrace, entryWrites_length]
    · intro k zf b hk hopen
      show (fileWrites (unpackTrace w files 0))[k]? = _
      rw [fileWrites_unpackTrace, entryWrites_getElem?, hk]
      simp [entryWrite, readZipFile_of_ok zf b hopen]
  · intro pre zf post err hfiles hpre
    have happ := unpack_append w pre (zf :: post) 0 (hall pre hpre)
    rw [← hfiles] at happ
    simp only [Nat.zero_add] at happ
    constructor
    · intro hr
      rw [happ, unpack_read_fail w zf post pre.length err hr]
      refine ⟨rfl, ?_, ?_⟩
      · show (unpackTrace w pre 0 ++ [Effect.stdout (entryLine zf), Effect.logFatal err]).getLast?
          = _
        rw [show unpackTrace w pre 0 ++ [Effect.stdout (entryLine zf), Effect.logFatal err] =
          (unpackTrace w pre 0 ++ [Effect.stdout (entryLine zf)]) ++ [Effect.logFatal err] by simp,
          List.getLast?_concat]
      · show fileWrites (unpackTrace w pre 0 ++ _) = _
        rw [fileWrites_append, fileWrites_unpackTrace]
        simp [fileWrites, Effect.isWrite]
    · intro hr hw
      rw [happ, unpack_write_fail w zf post pre.length err hr hw]
      refine ⟨rfl, ?_, ?_⟩
      · show (unpackTrace w pre 0 ++ [Effect.stdout (entryLine zf), entryWrite w pre.length zf,
          Effect.logFatal err]).getLast? = _
        rw [show unpackTrace w pre 0 ++ [Effect.stdout (entryLine zf),
            entryWrite w pre.length zf, Effect.logFatal err] =
          (unpackTrace w pre 0 ++ [Effect.stdout (entryLine zf), entryWrite w pre.length zf]) ++
            [Effect.logFatal err] by simp,
          List.getLast?_concat]
      · show fileWrites (unpackTrace w pre 0 ++ _) = _
        rw [fileWrites_append, fileWrites_unpackTrace]
        simp [fileWrites, Effect.isWrite, entryWrite]

/-- Witness of C8: the sample archive in the sample world. -/
theorem unpack_writes_each_entry_witness :
    (unpack sampleWorld sampleArchive 0).result = some () ∧
    (fileWrites (unpack sampleWorld sampleArchive 0).trace).length = sampleArchive.length :=
  ⟨((unpack_writes_each_entry sampleWorld sampleArchive).1 (by
      intro k zf hk
      match k, hk with
      | 0, hk => cases hk; exact ⟨⟨_, rfl⟩, rfl⟩
      | 1, hk => cases hk; exact ⟨⟨_, rfl⟩, rfl⟩
      | k + 2, hk => simp [sampleArchive] at hk)).1,
   ((unpack_writes_each_entry sampleWorld sampleArchive).1 (by
      intro k zf hk
      match k, hk with
      | 0, hk => cases hk; exact ⟨⟨_, rfl⟩, rfl⟩
      | 1, hk => cases hk; exact ⟨⟨_, rfl⟩, rfl⟩
      | k + 2, hk => simp [sampleArchive] at hk)).2.1⟩

/-- C9: when validation and branch orchestration have succeeded (so
`git checkout -b <disposable>` has succeeded) and the fetch, unpack, stage,
commit or diff phase is fatal, the run exits with status 1 and, after
`git checkout -b <disposable>`, runs no `checkout` and no `branch` command:
the trace ends with the trace of the failed phase.  In the branch-state model
the commands after `git checkout -b` leave the disposable branch checked
out. -/
theorem no_rollback_on_failure (fl : Flags) (w : World)
    (hv : (validate fl w).result = some ())
    (hb : (branchOrchestration fl w).result =
      some (trimRightNewline w.gitBranch.out, newBranchName w.now))
    (hfail : (fetchAndDiff fl w (newBranchName w.now)).result = none) :
    (main fl w).exitCode = 1 ∧
    ∃ pre post, (main fl w).trace =
        pre ++ Effect.exec "git" ["checkout", "-b", newBranchName w.now] :: post ∧
      (∀ e ∈ post, e.verb ≠ some "checkout" ∧ e.verb ≠ some "branch") ∧
      Effect.exec "git" ["checkout", trimRightNewline w.gitBranch.out] ∉ post ∧
      Effect.exec "git" ["branch", "-D", newBranchName w.now] ∉ post ∧
      ∀ (commit : Nat → Nat) (st : GitState), st.head = newBranchName w.now →
        st.tip st.head ≠ none →
        ∃ st1, gitReplay commit st (gitCommands post) = some st1 ∧
          st1.head = newBranchName w.now := by
  obtain ⟨_, hmain⟩ := main_of_prepared fl w _ hv hb
  rw [finish_of_fail fl w _ _ hfail] at hmain
  have hverbs : ∀ e ∈ (fetchAndDiff fl w (newBranchName w.now)).trace,
      e.verb ≠ some "checkout" ∧ e.verb ≠ some "branch" := by
    intro e he
    rcases fetchAndDiff_trace_verbs fl w _ e he with h | h | h | h <;> rw [h] <;>
      exact ⟨by decide, by decide⟩
  refine ⟨by rw [hmain]; rfl,
    validateTrace fl ++ switchTrace fl w, (fetchAndDiff fl w (newBranchName w.now)).trace,
    ?_, hverbs, ?_, ?_, ?_⟩
  · rw [hmain]
    simp [preparedTrace, checkoutNew]
  · intro hmem
    exact (hverbs _ hmem).1 rfl
  · intro hmem
    exact (hverbs _ hmem).2 rfl
  · intro commit st hhead htip
    obtain ⟨st1, h1, h2⟩ := gitReplay_keeps_head commit
      (gitCommands (fetchAndDiff fl w (newBranchName w.now)).trace) st
      (fun c hc => hverbs _ (mem_gitCommands _ c hc)) htip
    exact ⟨st1, h1, by rw [h2, hhead]⟩

/-- Witness of C9: `git diff` fails in the sample world. -/
theorem no_rollback_on_failure_witness :
    (validate sampleFlags diffFailsWorld).result = some () ∧
    (branchOrchestration sampleFlags diffFailsWorld).result =
      some (trimRightNewline diffFailsWorld.gitBranch.out, newBranchName diffFailsWorld.now) ∧
    (fetchAndDiff sampleFlags diffFailsWorld (newBranchName diffFailsWorld.now)).result = none ∧
    (main sampleFlags diffFailsWorld).exitCode = 1 :=
  ⟨by decide, by decide, by decide,
    (no_rollback_on_failure sampleFlags diffFailsWorld (by decide) (by decide) (by decide)).1⟩

/-- C10: with working directory `/home/u/repo` and an entry stored as `../b`,
the cleaned target path is `/home/u/b`, which is not `/home/u/repo` and not
below `/home/u/repo/`, and the unpack loop, and so the whole run, writes the
bytes of the entry there. -/
theorem unpack_writes_outside_workdir :
    sampleWorld.getwd 1 = "/home/u/repo" ∧
    sampleArchive[1]?.map ZipFile.Name = some "../b" ∧
    filepathClean ("/home/u/repo" ++ "/" ++ "../b") = "/home/u/b" ∧
    "/home/u/b" ≠ "/home/u/repo" ∧
    "/home/u/repo/".data.isPrefixOf "/home/u/b".data = false ∧
    Effect.writeFile "/home/u/b" [120] 0o644 ∈ (unpack sampleWorld sampleArchive 0).trace ∧
    Effect.writeFile "/home/u/b" [120] 0o644 ∈ (main sampleFlags sampleWorld).trace := by
  decide

end SesamDiff
